import Mathlib

/-
Verification of the StashStudioSync reconciliation engine against its
specification.  The repository ships the engine's documentation and the
UI button code; the engine itself (Matcher, Field Merger, Parent
Resolver, Orchestrator) is modelled here from the specification, and the
button code is embedded directly from the JavaScript sources.
-/

namespace StudioSync

/-! ## Data model -/

/-- Modelled from the spec (section 3, ExternalRecord.parent_stub; the engine's
Python source is not in the repository snapshot): a parent reference declared by
an external source, either a stable external id at the same source, or a bare
name when the source exposes none. -/
structure ParentStub where
  external_id : Option String
  name : String
deriving DecidableEq, Repr

/-- Modelled from the spec (section 3): a normalized result from one external
source. -/
structure ExternalRecord where
  source : String
  external_id : String
  name : String
  aliases : List String
  url : Option String
  image : Option String
  parent_stub : Option ParentStub
deriving DecidableEq, Repr

/-- Modelled from the spec (section 3): the local catalog's record of a studio.
The field `external_ids` is a per-source association list (keys unique per
source). -/
structure LocalEntity where
  id : Nat
  name : String
  external_ids : List (String × String)
  url : Option String
  image : Option String
  parent_id : Option Nat
deriving DecidableEq, Repr

/-! ## Name normalization (Matcher, spec section 4.2 step 1) -/

/-- Splits a list of characters into maximal whitespace-free words; the second
argument accumulates the current word in reverse. -/
def wordsAux : List Char → List Char → List (List Char)
  | [], acc => if acc.isEmpty then [] else [acc.reverse]
  | c :: cs, acc =>
    if c.isWhitespace then
      if acc.isEmpty then wordsAux cs [] else acc.reverse :: wordsAux cs []
    else wordsAux cs (c :: acc)

/-- Modelled from the spec (section 4.2 step 1; the Matcher source is not in
the repository snapshot): the case-insensitive, whitespace-normalized key of a
name, represented as its list of lower-cased words. -/
def normalizeName (s : String) : List String :=
  (wordsAux (s.toList.map Char.toLower) []).map (fun w => String.mk w)

/-! ## Matcher (spec section 4.2) -/

/-- Modelled from the spec (section 3, MatchResult): the outcome of Matcher for
one (LocalEntity, source) pair.  `exact` and `fuzzy` carry exactly one record;
`ambiguous` and `unmatched` carry none, so the MatchResult invariant holds by
construction. -/
inductive MatchResult where
  | exact (record : ExternalRecord)
  | fuzzy (score : Nat) (record : ExternalRecord)
  | ambiguous
  | unmatched
deriving DecidableEq, Repr

/-- The record chosen by a match outcome, when one exists. -/
def MatchResult.record? : MatchResult → Option ExternalRecord
  | .exact r => some r
  | .fuzzy _ r => some r
  | .ambiguous => none
  | .unmatched => none

/-- Modelled from the spec (section 4.2 step 1): whether a candidate's name or
one of its aliases equals the local name under case/whitespace normalization. -/
def isExactFor (key : List String) (c : ExternalRecord) : Bool :=
  normalizeName c.name == key || c.aliases.any (fun a => normalizeName a == key)

/-- Modelled from the spec (section 4.2 step 2): the similarity score of one
candidate, the best score among its name and aliases.  The metric itself
(thefuzz) is an external dependency, so it is a parameter. -/
def candScore (scoreFn : String → String → Nat) (localName : String)
    (c : ExternalRecord) : Nat :=
  (c.aliases.map (scoreFn localName)).foldl max (scoreFn localName c.name)

/-- Modelled from the spec (section 4.2 step 2): candidates paired with their
scores, keeping only those scoring at least the threshold. -/
def clearedCandidates (scoreFn : String → String → Nat) (localName : String)
    (cands : List ExternalRecord) (threshold : Nat) :
    List (ExternalRecord × Nat) :=
  (cands.map (fun c => (c, candScore scoreFn localName c))).filter
    (fun p => decide (threshold ≤ p.2))

/-- The best score present in a scored candidate list. -/
def bestScore (l : List (ExternalRecord × Nat)) : Nat :=
  l.foldl (fun m p => max m p.2) 0

/-- The candidates achieving the best score. -/
def topCandidates (l : List (ExternalRecord × Nat)) :
    List (ExternalRecord × Nat) :=
  l.filter (fun p => p.2 == bestScore l)

/-- Modelled from the spec (section 4.2; the Matcher source is not in the
repository snapshot): exact matching first, then fuzzy scoring above the
threshold, surfacing ambiguity rather than guessing. -/
def matchNames (scoreFn : String → String → Nat) (localName : String)
    (cands : List ExternalRecord) (fuzzyEnabled : Bool) (threshold : Nat) :
    MatchResult :=
  match cands.filter (isExactFor (normalizeName localName)) with
  | [c] => .exact c
  | _ :: _ :: _ => .ambiguous
  | [] =>
    if fuzzyEnabled then
      match topCandidates (clearedCandidates scoreFn localName cands threshold) with
      | [] => .unmatched
      | [(c, sc)] => .fuzzy sc c
      | _ :: _ :: _ => .ambiguous
    else .unmatched

/-! ## Field Merger (spec section 4.4) -/

/-- Modelled from the spec (section 4.4): fill-missing-only versus force
update semantics. -/
inductive Mode where
  | fill_missing
  | force
deriving DecidableEq, Repr

/-- The matched records, in source priority order: sources whose outcome was
`ambiguous` or `unmatched` contribute nothing. -/
def matchedRecords (matchList : List (String × MatchResult)) :
    List (String × ExternalRecord) :=
  matchList.filterMap (fun p => (p.2.record?).map (fun r => (p.1, r)))

/-- An optional field value counted as supplied only when present and
non-empty. -/
def nonEmptyVal (v : Option String) : Option String :=
  v.bind (fun s => if s = "" then none else some s)

/-- Modelled from the spec (section 4.4): the first source in priority order
that supplies a non-empty value for the given field, with the value. -/
def firstSupplied (f : ExternalRecord → Option String) :
    List (String × ExternalRecord) → Option (String × String)
  | [] => none
  | p :: rest =>
    match nonEmptyVal (f p.2) with
    | some v => some (p.1, v)
    | none => firstSupplied f rest

/-- Spec-side characterization of the priority rule: the head of the list of
non-empty values contributed in priority order. -/
def prioritizedValue (f : ExternalRecord → Option String)
    (cands : List (String × ExternalRecord)) : Option String :=
  (cands.filterMap (fun p => nonEmptyVal (f p.2))).head?

/-- Modelled from the spec (section 4.4): the change, if any, to a single
shared slot (`url` or `image`).  In fill-missing mode the slot is set only if
currently absent; in force mode it is recomputed by the same priority order and
a change is recorded only if the recomputed value differs. -/
def slotChange (mode : Mode) (cur : Option String)
    (cands : List (String × ExternalRecord))
    (f : ExternalRecord → Option String) : Option (String × String) :=
  match mode with
  | .fill_missing =>
    match cur with
    | some _ => none
    | none => firstSupplied f cands
  | .force =>
    match firstSupplied f cands with
    | none => none
    | some (s, v) => if cur = some v then none else some (s, v)

/-- Looks up a source's slot in a per-source association list (first entry for
the key, as a dictionary would give). -/
def lookupSource (m : List (String × String)) (s : String) : Option String :=
  (m.find? (fun p => p.1 == s)).map Prod.snd

/-- Sets a source's slot in a per-source association list, replacing the
existing entries for that key or appending a fresh one. -/
def setSource (m : List (String × String)) (s v : String) :
    List (String × String) :=
  if m.any (fun p => p.1 == s) then
    m.map (fun p => if p.1 == s then (s, v) else p)
  else m ++ [(s, v)]

/-- Modelled from the spec (section 4.4): per-source external-id changes.  A
match against a source only ever writes that source's own slot; in fill-missing
mode only an absent slot is set, in force mode a change is recorded exactly
when the slot differs from the matched record's id. -/
def externalIdChangesFor (mode : Mode) (cur : List (String × String))
    (cands : List (String × ExternalRecord)) : List (String × String) :=
  cands.filterMap (fun p =>
    match mode with
    | .fill_missing =>
      if (lookupSource cur p.1).isSome then none
      else some (p.1, p.2.external_id)
    | .force =>
      if lookupSource cur p.1 == some p.2.external_id then none
      else some (p.1, p.2.external_id))

/-! ## Parent Resolver (spec section 4.3) -/

/-- Modelled from the spec (sections 3 and 4.3): the parent part of a merge
plan — link to an existing local parent (possibly back-filling that parent's
external id for the source), or create a new parent and link it. -/
inductive ParentChange where
  | linkExisting (parentId : Nat) (backfill : Option (String × String))
  | createAndLink (name : String) (externalId : Option (String × String))
deriving DecidableEq, Repr

/-- Finds the first catalog entity whose slot for the source equals the given
external id. -/
def findByExternalId (catalog : List LocalEntity) (s eid : String) :
    Option LocalEntity :=
  catalog.find? (fun x => lookupSource x.external_ids s == some eid)

/-- Finds the first catalog entity with exactly the given name. -/
def findByExactName (catalog : List LocalEntity) (n : String) :
    Option LocalEntity :=
  catalog.find? (fun x => x.name == n)

/-- Modelled from the spec (section 4.3 steps 2-3): name-based resolution,
back-filling the source's external id when an existing entity is found by
name. -/
def resolveByName (catalog : List LocalEntity) (s : String)
    (stub : ParentStub) : ParentChange :=
  match findByExactName catalog stub.name with
  | some p => .linkExisting p.id (stub.external_id.map (fun eid => (s, eid)))
  | none => .createAndLink stub.name (stub.external_id.map (fun eid => (s, eid)))

/-- Modelled from the spec (section 4.3; the Parent Resolver source is not in
the repository snapshot): resolve a declared parent stub — by external id
first, then by exact name, else create. -/
def resolveParent (catalog : List LocalEntity) (s : String)
    (stub : ParentStub) : ParentChange :=
  match stub.external_id with
  | some eid =>
    match findByExternalId catalog s eid with
    | some p => .linkExisting p.id none
    | none => resolveByName catalog s stub
  | none => resolveByName catalog s stub

/-- The parent function of the catalog's forest: maps an entity id to its
parent id, when the entity exists and has one. -/
def parentOf (catalog : List LocalEntity) (i : Nat) : Option Nat :=
  (catalog.find? (fun x => x.id == i)).bind (fun x => x.parent_id)

/-- Walks up to `fuel` steps of the parent chain starting at `x` (inclusive)
and reports whether `t` occurs. -/
def chainMem (p : Nat → Option Nat) : Nat → Nat → Nat → Bool
  | 0, x, t => x == t
  | fuel + 1, x, t =>
    x == t ||
      match p x with
      | none => false
      | some y => chainMem p fuel y t

/-- The highest-priority source that produced both a match and a parent
stub, with its stub. -/
def pickParentStub (cands : List (String × ExternalRecord)) :
    Option (String × ParentStub) :=
  cands.findSome? (fun p => p.2.parent_stub.map (fun st => (p.1, st)))

/-- Modelled from the spec (sections 4.3 and 4.4; the merger source is not in
the repository snapshot): choose the highest-priority source that produced both
a match and a parent stub, resolve it, drop the change when the entity is
already linked to that parent, and reject it as a hierarchy conflict when the
entity occurs in the candidate parent's chain.  Returns the optional parent
change and the conflict flag. -/
def parentChangeFor (catalog : List LocalEntity) (e : LocalEntity)
    (cands : List (String × ExternalRecord)) : Option ParentChange × Bool :=
  match pickParentStub cands with
  | none => (none, false)
  | some (s, stub) =>
    match resolveParent catalog s stub with
    | .linkExisting p bf =>
      if e.parent_id = some p then (none, false)
      else if chainMem (parentOf catalog) catalog.length p e.id then (none, true)
      else (some (.linkExisting p bf), false)
    | .createAndLink n xid => (some (.createAndLink n xid), false)

/-! ## MergePlan and merge (spec sections 3 and 4.4) -/

/-- Modelled from the spec (section 3, MergePlan): the engine's output for one
local entity — the field changes, the clean-slot source contributions, the
optional parent change, and whether a hierarchy conflict was reported. -/
structure MergePlan where
  external_id_changes : List (String × String)
  url_change : Option String
  url_source : Option String
  image_change : Option String
  image_source : Option String
  parent_change : Option ParentChange
  hierarchy_conflict : Bool
deriving DecidableEq, Repr

/-- A plan with empty field changes and no parent change: the entity is
complete. -/
def MergePlan.isComplete (p : MergePlan) : Bool :=
  p.external_id_changes.isEmpty && p.url_change.isNone &&
    p.image_change.isNone && p.parent_change.isNone

/-- Modelled from the spec (section 4.4; the Field Merger source is not in the
repository snapshot): compute the merge plan for one local entity from the
priority-ordered match results. -/
def merge (catalog : List LocalEntity) (e : LocalEntity)
    (matchList : List (String × MatchResult)) (mode : Mode) : MergePlan :=
  let cands := matchedRecords matchList
  let u := slotChange mode e.url cands (fun r => r.url)
  let im := slotChange mode e.image cands (fun r => r.image)
  let pc := parentChangeFor catalog e cands
  { external_id_changes := externalIdChangesFor mode e.external_ids cands
    url_change := u.map Prod.snd
    url_source := u.map Prod.fst
    image_change := im.map Prod.snd
    image_source := im.map Prod.fst
    parent_change := pc.1
    hierarchy_conflict := pc.2 }

/-! ## Applying a plan (spec section 4.5) -/

/-- A fresh local id: one more than the largest id in the catalog. -/
def freshId (catalog : List LocalEntity) : Nat :=
  catalog.foldr (fun x m => max x.id m) 0 + 1

/-- Applies a plan's field changes to the entity itself. -/
def applyFieldChanges (x : LocalEntity) (plan : MergePlan) : LocalEntity :=
  { x with
    external_ids :=
      plan.external_id_changes.foldl (fun m p => setSource m p.1 p.2)
        x.external_ids
    url := match plan.url_change with | some v => some v | none => x.url
    image := match plan.image_change with | some v => some v | none => x.image }

/-- Applies the entity-level field changes of a plan across the catalog. -/
def applyFields (catalog : List LocalEntity) (eid : Nat) (plan : MergePlan) :
    List LocalEntity :=
  catalog.map (fun x => if x.id == eid then applyFieldChanges x plan else x)

/-- Sets the parent link of the entity with the given id. -/
def applyLink (catalog : List LocalEntity) (eid p : Nat) : List LocalEntity :=
  catalog.map (fun x =>
    if x.id == eid then { x with parent_id := some p } else x)

/-- Back-fills a source's external id onto the entity with the given id. -/
def applyBackfill (catalog : List LocalEntity) (pid : Nat) (s v : String) :
    List LocalEntity :=
  catalog.map (fun x =>
    if x.id == pid then { x with external_ids := setSource x.external_ids s v }
    else x)

/-- The freshly created parent entity of a create-and-link plan. -/
def newParentEntity (np : Nat) (n : String) (xid : Option (String × String)) :
    LocalEntity :=
  { id := np, name := n
    external_ids := match xid with | some sv => [sv] | none => []
    url := none, image := none, parent_id := none }

/-- Modelled from the spec (section 4.5 applied transition; the orchestrator
source is not in the repository snapshot): apply a merge plan for the entity
with the given id — field changes on the entity, then parent creation or
linking and any back-fill on the parent. -/
def applyPlan (catalog : List LocalEntity) (eid : Nat) (plan : MergePlan) :
    List LocalEntity :=
  let c1 := applyFields catalog eid plan
  match plan.parent_change with
  | none => c1
  | some (.linkExisting p bf) =>
    match bf with
    | none => applyLink c1 eid p
    | some (s, v) => applyBackfill (applyLink c1 eid p) p s v
  | some (.createAndLink n xid) =>
    applyLink (c1 ++ [newParentEntity (freshId c1) n xid]) eid (freshId c1)

/-- Modelled from the spec (section 4.5; the orchestrator source is not in the
repository snapshot): drive one entity through merging and plan application,
returning the computed plan and the updated catalog. -/
def processEntity (catalog : List LocalEntity) (eid : Nat)
    (matchList : List (String × MatchResult)) (mode : Mode) :
    MergePlan × List LocalEntity :=
  match catalog.find? (fun x => x.id == eid) with
  | none =>
    ({ external_id_changes := [], url_change := none, url_source := none
       image_change := none, image_source := none, parent_change := none
       hierarchy_conflict := false }, catalog)
  | some e =>
    let plan := merge catalog e matchList mode
    (plan, applyPlan catalog eid plan)

/-! ## Helper lemmas: priority-ordered slot values -/

lemma firstSupplied_map_snd (f : ExternalRecord → Option String)
    (cands : List (String × ExternalRecord)) :
    (firstSupplied f cands).map Prod.snd = prioritizedValue f cands := by
  induction cands with
  | nil => rfl
  | cons p rest ih =>
    simp only [firstSupplied, prioritizedValue, List.filterMap_cons]
    cases h : nonEmptyVal (f p.2) with
    | none => simpa [prioritizedValue] using ih
    | some v => simp

lemma slotChange_fill_map_snd (cur : Option String)
    (cands : List (String × ExternalRecord)) (f : ExternalRecord → Option String) :
    (slotChange Mode.fill_missing cur cands f).map Prod.snd =
      if cur.isSome then none else prioritizedValue f cands := by
  cases cur with
  | none => simp [slotChange, firstSupplied_map_snd]
  | some v => simp [slotChange]

lemma slotChange_force_map_snd (cur : Option String)
    (cands : List (String × ExternalRecord)) (f : ExternalRecord → Option String) :
    (slotChange Mode.force cur cands f).map Prod.snd =
      match prioritizedValue f cands with
      | none => none
      | some v => if cur = some v then none else some v := by
  rw [← firstSupplied_map_snd]
  cases h : firstSupplied f cands with
  | none => simp [slotChange, h]
  | some p =>
    obtain ⟨s, v⟩ := p
    by_cases hc : cur = some v <;> simp [slotChange, h, hc]

/-- Claim C1: in fill-missing mode the shared url and image slots are set only
when currently absent, taking the first non-empty value in source priority
order; in force mode they are recomputed by the same priority order regardless
of the current value, and a change is recorded only when the recomputed value
differs from the current one. -/
theorem merge_shared_slot_fill_vs_force (catalog : List LocalEntity)
    (e : LocalEntity) (matchList : List (String × MatchResult)) :
    ((merge catalog e matchList Mode.fill_missing).url_change =
      if e.url.isSome then none
      else prioritizedValue (fun r => r.url) (matchedRecords matchList)) ∧
    ((merge catalog e matchList Mode.fill_missing).image_change =
      if e.image.isSome then none
      else prioritizedValue (fun r => r.image) (matchedRecords matchList)) ∧
    ((merge catalog e matchList Mode.force).url_change =
      match prioritizedValue (fun r => r.url) (matchedRecords matchList) with
      | none => none
      | some v => if e.url = some v then none else some v) ∧
    ((merge catalog e matchList Mode.force).image_change =
      match prioritizedValue (fun r => r.image) (matchedRecords matchList) with
      | none => none
      | some v => if e.image = some v then none else some v) ∧
    (∀ v, (merge catalog e matchList Mode.force).url_change = some v →
      e.url ≠ some v) ∧
    (∀ v, (merge catalog e matchList Mode.force).image_change = some v →
      e.image ≠ some v) := by
  have hu := slotChange_fill_map_snd e.url (matchedRecords matchList) (fun r => r.url)
  have hi := slotChange_fill_map_snd e.image (matchedRecords matchList) (fun r => r.image)
  have hu2 := slotChange_force_map_snd e.url (matchedRecords matchList) (fun r => r.url)
  have hi2 := slotChange_force_map_snd e.image (matchedRecords matchList) (fun r => r.image)
  refine ⟨?_, ?_, ?_, ?_, ?_, ?_⟩
  · simpa [merge] using hu
  · simpa [merge] using hi
  · simpa [merge] using hu2
  · simpa [merge] using hi2
  · intro v hv
    simp only [merge] at hv
    rw [hu2] at hv
    cases hp : prioritizedValue (fun r => r.url) (matchedRecords matchList) with
    | none => rw [hp] at hv; simp at hv
    | some w =>
      rw [hp] at hv
      by_cases hc : e.url = some w
      · simp [hc] at hv
      · simp [hc] at hv
        subst hv
        exact hc
  · intro v hv
    simp only [merge] at hv
    rw [hi2] at hv
    cases hp : prioritizedValue (fun r => r.image) (matchedRecords matchList) with
    | none => rw [hp] at hv; simp at hv
    | some w =>
      rw [hp] at hv
      by_cases hc : e.image = some w
      · simp [hc] at hv
      · simp [hc] at hv
        subst hv
        exact hc

/-- The spec's force-vs-fill-missing scenario: the entity already has an
image. -/
def c1Entity : LocalEntity :=
  { id := 1, name := "E", external_ids := [], url := none
    image := some "old.jpg", parent_id := none }

/-- The spec's force-vs-fill-missing scenario: the priority-1 source reports a
new image. -/
def c1Matches : List (String × MatchResult) :=
  [("src1", MatchResult.exact
    { source := "src1", external_id := "x1", name := "E", aliases := []
      url := none, image := some "new.jpg", parent_stub := none })]

theorem merge_shared_slot_fill_vs_force_wit :
    (merge [] c1Entity c1Matches Mode.fill_missing).image_change = none ∧
    (merge [] c1Entity c1Matches Mode.force).image_change = some "new.jpg" ∧
    c1Entity.image ≠ some "new.jpg" := by
  refine ⟨?_, ?_, ?_⟩
  · rw [(merge_shared_slot_fill_vs_force [] c1Entity c1Matches).2.1]; decide
  · rw [(merge_shared_slot_fill_vs_force [] c1Entity c1Matches).2.2.2.1]; decide
  · exact (merge_shared_slot_fill_vs_force [] c1Entity c1Matches).2.2.2.2.2
      "new.jpg" (by decide)

/-- Claim C2: exact matching is decided first — a unique exact candidate gives
outcome `exact` without consulting fuzzy scoring at all (the result does not
depend on the score function), and more than one exact candidate gives
`ambiguous`. -/
theorem matcher_exact_priority (scoreFn scoreFn2 : String → String → Nat)
    (localName : String) (cands : List ExternalRecord) (fuzzyEnabled : Bool)
    (threshold : Nat) :
    (∀ c, cands.filter (isExactFor (normalizeName localName)) = [c] →
      matchNames scoreFn localName cands fuzzyEnabled threshold =
        MatchResult.exact c) ∧
    (∀ c d rest, cands.filter (isExactFor (normalizeName localName)) =
        c :: d :: rest →
      matchNames scoreFn localName cands fuzzyEnabled threshold =
        MatchResult.ambiguous) ∧
    (cands.filter (isExactFor (normalizeName localName)) ≠ [] →
      matchNames scoreFn localName cands fuzzyEnabled threshold =
        matchNames scoreFn2 localName cands fuzzyEnabled threshold) := by
  refine ⟨?_, ?_, ?_⟩
  · intro c h
    unfold matchNames
    rw [h]
  · intro c d rest h
    unfold matchNames
    rw [h]
  · intro h
    unfold matchNames
    cases hf : cands.filter (isExactFor (normalizeName localName)) with
    | nil => exact absurd hf h
    | cons a t => cases t <;> rfl

/-- The spec's exact-match-priority scenario: an exact candidate next to a
near-miss candidate. -/
def c2Exact : ExternalRecord :=
  { source := "s", external_id := "1", name := "Alpha Studio", aliases := []
    url := none, image := none, parent_stub := none }

/-- The near-miss candidate of the exact-match-priority scenario. -/
def c2Fuzzy : ExternalRecord :=
  { source := "s", external_id := "2", name := "Alpha Studios", aliases := []
    url := none, image := none, parent_stub := none }

theorem matcher_exact_priority_wit :
    matchNames (fun _ _ => 92) "Alpha Studio" [c2Exact, c2Fuzzy] true 85 =
      MatchResult.exact c2Exact := by
  exact (matcher_exact_priority (fun _ _ => 92) (fun _ _ => 0) "Alpha Studio"
    [c2Exact, c2Fuzzy] true 85).1 c2Exact (by decide)

/-! ## Helper lemmas: best scores -/

lemma foldl_max_ge (l : List (ExternalRecord × Nat)) (a : Nat) :
    a ≤ l.foldl (fun m q => max m q.2) a := by
  induction l generalizing a with
  | nil => exact le_refl a
  | cons q t ih =>
    simp only [List.foldl_cons]
    exact le_trans (le_max_left a q.2) (ih (max a q.2))

lemma mem_le_foldl_max {l : List (ExternalRecord × Nat)} {p : ExternalRecord × Nat}
    (hp : p ∈ l) (a : Nat) : p.2 ≤ l.foldl (fun m q => max m q.2) a := by
  induction l generalizing a with
  | nil => cases hp
  | cons q t ih =>
    simp only [List.foldl_cons]
    rcases List.mem_cons.mp hp with h | h
    · subst h
      exact le_trans (le_max_right a p.2) (foldl_max_ge t _)
    · exact ih h _

lemma bestScore_ge {l : List (ExternalRecord × Nat)} {p : ExternalRecord × Nat}
    (hp : p ∈ l) : p.2 ≤ bestScore l :=
  mem_le_foldl_max hp 0

lemma foldl_max_le {l : List (ExternalRecord × Nat)} {s : Nat} (a : Nat)
    (ha : a ≤ s) (h : ∀ p ∈ l, p.2 ≤ s) :
    l.foldl (fun m q => max m q.2) a ≤ s := by
  induction l generalizing a with
  | nil => exact ha
  | cons q t ih =>
    simp only [List.foldl_cons]
    exact ih _ (max_le ha (h q (List.mem_cons_self q t)))
      (fun p hp => h p (List.mem_cons_of_mem _ hp))

lemma bestScore_le {l : List (ExternalRecord × Nat)} {s : Nat}
    (h : ∀ p ∈ l, p.2 ≤ s) : bestScore l ≤ s :=
  foldl_max_le 0 (Nat.zero_le s) h

/-- Claim C3: among fuzzy candidates clearing the threshold, a candidate whose
score is strictly greater than every other cleared candidate's score wins with
outcome `fuzzy(score)`; when a second cleared candidate ties the top score the
outcome is `ambiguous`, never an arbitrary pick. -/
theorem matcher_fuzzy_top_selection (scoreFn : String → String → Nat)
    (localName : String) (cands : List ExternalRecord) (threshold : Nat)
    (hexact : cands.filter (isExactFor (normalizeName localName)) = []) :
    (∀ c s, (c, s) ∈ clearedCandidates scoreFn localName cands threshold →
      (∀ q ∈ (clearedCandidates scoreFn localName cands threshold).erase (c, s),
        q.2 < s) →
      matchNames scoreFn localName cands true threshold = MatchResult.fuzzy s c) ∧
    (∀ c s c2,
      (c, s) ∈ clearedCandidates scoreFn localName cands threshold →
      (c2, s) ∈ (clearedCandidates scoreFn localName cands threshold).erase (c, s) →
      s = bestScore (clearedCandidates scoreFn localName cands threshold) →
      matchNames scoreFn localName cands true threshold =
        MatchResult.ambiguous) := by
  refine ⟨?_, ?_⟩
  · intro c s hc hlt
    obtain ⟨l₁, l₂, hn, hdec, her⟩ := List.exists_erase_eq hc
    have hbs : bestScore (clearedCandidates scoreFn localName cands threshold) = s := by
      apply le_antisymm
      · apply bestScore_le
        intro p hp
        rw [hdec] at hp
        rcases List.mem_append.mp hp with h1 | h2
        · exact le_of_lt (hlt p (her ▸ List.mem_append.mpr (Or.inl h1)))
        · rcases List.mem_cons.mp h2 with he | h3
          · rw [he]
          · exact le_of_lt (hlt p (her ▸ List.mem_append.mpr (Or.inr h3)))
      · exact bestScore_ge hc
    have htop : topCandidates (clearedCandidates scoreFn localName cands threshold)
        = [(c, s)] := by
      unfold topCandidates
      rw [hbs, hdec, List.filter_append, List.filter_cons]
      have h1 : l₁.filter (fun p => p.2 == s) = [] := by
        rw [List.filter_eq_nil_iff]
        intro p hp
        have := hlt p (her ▸ List.mem_append.mpr (Or.inl hp))
        simp only [beq_iff_eq]
        omega
      have h2 : l₂.filter (fun p => p.2 == s) = [] := by
        rw [List.filter_eq_nil_iff]
        intro p hp
        have := hlt p (her ▸ List.mem_append.mpr (Or.inr hp))
        simp only [beq_iff_eq]
        omega
      simp [h1, h2]
    simp only [matchNames, hexact, htop, if_true]
  · intro c s c2 hc hd hbest
    obtain ⟨l₁, l₂, hn, hdec, her⟩ := List.exists_erase_eq hc
    have hb2 : bestScore (clearedCandidates scoreFn localName cands threshold) = s :=
      hbest.symm
    have hmem2 : (c2, s) ∈ l₁ ∨ (c2, s) ∈ l₂ :=
      List.mem_append.mp (her ▸ hd)
    have htoplen :
        2 ≤ (topCandidates (clearedCandidates scoreFn localName cands threshold)).length := by
      unfold topCandidates
      rw [hb2, hdec, List.filter_append, List.filter_cons]
      simp only [beq_self_eq_true, if_true]
      rcases hmem2 with h | h
      · have hm : (c2, s) ∈ l₁.filter (fun p => p.2 == s) :=
          List.mem_filter.mpr ⟨h, by simp⟩
        have h1 : 0 < (l₁.filter (fun p => p.2 == s)).length :=
          List.length_pos_of_mem hm
        simp only [List.length_append, List.length_cons]
        omega
      · have hm : (c2, s) ∈ l₂.filter (fun p => p.2 == s) :=
          List.mem_filter.mpr ⟨h, by simp⟩
        have h1 : 0 < (l₂.filter (fun p => p.2 == s)).length :=
          List.length_pos_of_mem hm
        simp only [List.length_append, List.length_cons]
        omega
    cases htop : topCandidates (clearedCandidates scoreFn localName cands threshold) with
    | nil => rw [htop] at htoplen; simp at htoplen
    | cons a t =>
      cases t with
      | nil => rw [htop] at htoplen; simp at htoplen
      | cons b t2 => simp only [matchNames, hexact, htop, if_true]

/-- Two distinct non-exact candidates for the fuzzy-stage scenarios. -/
def c3CandA : ExternalRecord :=
  { source := "s", external_id := "1", name := "Beta", aliases := []
    url := none, image := none, parent_stub := none }

/-- Second candidate for the fuzzy-stage scenarios. -/
def c3CandB : ExternalRecord :=
  { source := "s", external_id := "2", name := "Gamma", aliases := []
    url := none, image := none, parent_stub := none }

theorem matcher_fuzzy_top_selection_wit :
    matchNames (fun _ _ => 90) "Alpha Studio" [c3CandA, c3CandB] true 85 =
      MatchResult.ambiguous ∧
    matchNames (fun _ n => if n = "Beta" then 90 else 80) "Alpha Studio"
      [c3CandA, c3CandB] true 85 = MatchResult.fuzzy 90 c3CandA := by
  constructor
  · exact (matcher_fuzzy_top_selection (fun _ _ => 90) "Alpha Studio"
      [c3CandA, c3CandB] 85 (by decide)).2 c3CandA 90 c3CandB
      (by decide) (by decide) (by decide)
  · exact (matcher_fuzzy_top_selection (fun _ n => if n = "Beta" then 90 else 80)
      "Alpha Studio" [c3CandA, c3CandB] 85 (by decide)).1 c3CandA 90
      (by decide) (by decide)

/-- Claim C4: fuzzy filtering is inclusive at the boundary — a candidate whose
similarity score equals the threshold is kept among the cleared fuzzy
candidates, and one scoring below the threshold (in particular exactly one
point below) is rejected. -/
theorem matcher_threshold_inclusive (scoreFn : String → String → Nat)
    (localName : String) (cands : List ExternalRecord) (threshold : Nat)
    (c : ExternalRecord) :
    (c ∈ cands → candScore scoreFn localName c = threshold →
      (c, threshold) ∈ clearedCandidates scoreFn localName cands threshold) ∧
    (candScore scoreFn localName c + 1 = threshold →
      ∀ s, (c, s) ∉ clearedCandidates scoreFn localName cands threshold) := by
  constructor
  · intro hmem hsc
    unfold clearedCandidates
    apply List.mem_filter.mpr
    constructor
    · have h := List.mem_map_of_mem
        (fun c => (c, candScore scoreFn localName c)) hmem
      simpa [hsc] using h
    · simp
  · intro hsc s hin
    unfold clearedCandidates at hin
    have h1 := List.mem_filter.mp hin
    obtain ⟨d, hd, hde⟩ := List.mem_map.mp h1.1
    have h2 := h1.2
    cases hde
    simp only [decide_eq_true_eq] at h2
    omega

/-- A candidate scoring exactly at the threshold in the boundary scenarios. -/
def c4Cand : ExternalRecord :=
  { source := "s", external_id := "1", name := "Delta", aliases := []
    url := none, image := none, parent_stub := none }

theorem matcher_threshold_inclusive_wit :
    ((c4Cand, 85) ∈ clearedCandidates (fun _ _ => 85) "Alpha" [c4Cand] 85) ∧
    (∀ s, (c4Cand, s) ∉ clearedCandidates (fun _ _ => 84) "Alpha" [c4Cand] 85) ∧
    ((c4Cand, 95) ∈ clearedCandidates (fun _ _ => 95) "Alpha" [c4Cand] 95) ∧
    (∀ s, (c4Cand, s) ∉ clearedCandidates (fun _ _ => 94) "Alpha" [c4Cand] 95) := by
  refine ⟨?_, ?_, ?_, ?_⟩
  · exact (matcher_threshold_inclusive (fun _ _ => 85) "Alpha" [c4Cand] 85
      c4Cand).1 (by decide) (by decide)
  · exact (matcher_threshold_inclusive (fun _ _ => 84) "Alpha" [c4Cand] 85
      c4Cand).2 (by decide)
  · exact (matcher_threshold_inclusive (fun _ _ => 95) "Alpha" [c4Cand] 95
      c4Cand).1 (by decide) (by decide)
  · exact (matcher_threshold_inclusive (fun _ _ => 94) "Alpha" [c4Cand] 95
      c4Cand).2 (by decide)

/-! ## Determinism of merge (spec section 4.4) -/

lemma filterMap_congr_fun {α β : Type} (f g : α → Option β) (l : List α)
    (h : ∀ a, f a = g a) : l.filterMap f = l.filterMap g := by
  induction l with
  | nil => rfl
  | cons a t ih => simp only [List.filterMap_cons, h a, ih]

lemma lookupSource_perm {l1 l2 : List (String × String)} (hp : l1.Perm l2)
    (s : String) : (l1.map Prod.fst).Nodup →
    lookupSource l1 s = lookupSource l2 s := by
  induction hp with
  | nil => intro _; rfl
  | cons x h ih =>
    intro hn
    simp only [List.map_cons, List.nodup_cons] at hn
    unfold lookupSource
    cases hx : (x.1 == s) with
    | true => simp [List.find?_cons, hx]
    | false =>
      have h2 := ih hn.2
      unfold lookupSource at h2
      simpa [List.find?_cons, hx] using h2
  | swap x y t =>
    intro hn
    simp only [List.map_cons, List.nodup_cons, List.mem_cons] at hn
    unfold lookupSource
    cases hy : (y.1 == s) with
    | true =>
      cases hx : (x.1 == s) with
      | true =>
        rw [beq_iff_eq] at hy hx
        exact absurd (hy.trans hx.symm) (fun hc => hn.1 (Or.inl hc))
      | false => simp [List.find?_cons, hy, hx]
    | false =>
      cases hx : (x.1 == s) with
      | true => simp [List.find?_cons, hy, hx]
      | false => simp [List.find?_cons, hy, hx]
  | trans h1 h2 ih1 ih2 =>
    intro hn
    have hn2 := ((h1.map Prod.fst).nodup_iff).mp hn
    exact (ih1 hn).trans (ih2 hn2)

lemma parentChangeFor_congr (catalog : List LocalEntity) (e e2 : LocalEntity)
    (cands : List (String × ExternalRecord)) (hid : e.id = e2.id)
    (hp : e.parent_id = e2.parent_id) :
    parentChangeFor catalog e cands = parentChangeFor catalog e2 cands := by
  unfold parentChangeFor
  rw [hid, hp]

lemma externalIdChangesFor_congr (mode : Mode) (cur1 cur2 : List (String × String))
    (cands : List (String × ExternalRecord))
    (h : ∀ s, lookupSource cur1 s = lookupSource cur2 s) :
    externalIdChangesFor mode cur1 cands = externalIdChangesFor mode cur2 cands := by
  unfold externalIdChangesFor
  apply filterMap_congr_fun
  intro p
  cases mode <;> rw [h p.1]

/-- Claim C7: merge is deterministic — equal inputs give equal MergePlans, and
since source priority is an explicit input list the outcome is also invariant
under reordering the entity's external-id dictionary entries (no reliance on
container iteration order). -/
theorem merge_deterministic :
    (∀ (catalog : List LocalEntity) (e e2 : LocalEntity)
        (m1 m2 : List (String × MatchResult)) (mo1 mo2 : Mode),
      e = e2 → m1 = m2 → mo1 = mo2 →
      merge catalog e m1 mo1 = merge catalog e2 m2 mo2) ∧
    (∀ (catalog : List LocalEntity) (e : LocalEntity)
        (ids2 : List (String × String))
        (matchList : List (String × MatchResult)) (mode : Mode),
      e.external_ids.Perm ids2 →
      (e.external_ids.map Prod.fst).Nodup →
      merge catalog e matchList mode =
        merge catalog { e with external_ids := ids2 } matchList mode) := by
  constructor
  · intro catalog e e2 m1 m2 mo1 mo2 he hm hmo
    rw [he, hm, hmo]
  · intro catalog e ids2 matchList mode hperm hnd
    have hl : ∀ s, lookupSource e.external_ids s = lookupSource ids2 s :=
      fun s => lookupSource_perm hperm s hnd
    simp only [merge]
    rw [externalIdChangesFor_congr mode e.external_ids ids2
      (matchedRecords matchList) hl]
    rw [parentChangeFor_congr catalog e { e with external_ids := ids2 }
      (matchedRecords matchList) rfl rfl]

theorem merge_deterministic_wit :
    merge [] { id := 1, name := "E"
               external_ids := [("stashdb", "a"), ("tpdb", "b")]
               url := none, image := none, parent_id := none } [] Mode.force =
    merge [] { id := 1, name := "E"
               external_ids := [("tpdb", "b"), ("stashdb", "a")]
               url := none, image := none, parent_id := none } [] Mode.force := by
  exact merge_deterministic.2 []
    { id := 1, name := "E", external_ids := [("stashdb", "a"), ("tpdb", "b")]
      url := none, image := none, parent_id := none }
    [("tpdb", "b"), ("stashdb", "a")] [] Mode.force (by decide) (by decide)

/-! ## Run-level mutual exclusion (spec sections 4.5 and 5) -/

/-- Modelled from the spec (sections 4.5 and 5; the orchestrator source is not
in the repository snapshot): the engine-level state — whether a mutating run
currently holds the single catalog lock, together with the catalog. -/
structure EngineState where
  lockHeld : Bool
  catalog : List LocalEntity
deriving DecidableEq, Repr

/-- Modelled from the spec (section 7, concurrent-run conflict): the outcome of
attempting to start a run. -/
inductive StartOutcome where
  | started
  | alreadyRunning
deriving DecidableEq, Repr

/-- Modelled from the spec (section 4.5 run-level mutual exclusion; the
orchestrator source is not in the repository snapshot): attempt a mutating
run.  While the lock is held the attempt fails fast with the distinguishable
already-running outcome, before performing any catalog write; otherwise the
run acquires the lock, performs its writes, and releases the lock. -/
def runMutating (st : EngineState)
    (work : List LocalEntity → List LocalEntity) :
    StartOutcome × EngineState :=
  if st.lockHeld then (StartOutcome.alreadyRunning, st)
  else (StartOutcome.started, { lockHeld := false, catalog := work st.catalog })

/-- Claim C8: starting a second mutating run while one is active fails
immediately with the distinguishable already-running outcome, performs zero
catalog writes, and leaves the existing run's lock intact. -/
theorem concurrent_run_exclusion (st : EngineState)
    (work : List LocalEntity → List LocalEntity) (h : st.lockHeld = true) :
    (runMutating st work).1 = StartOutcome.alreadyRunning ∧
    (runMutating st work).2 = st ∧
    (runMutating st work).2.catalog = st.catalog ∧
    (runMutating st work).2.lockHeld = true ∧
    StartOutcome.alreadyRunning ≠ StartOutcome.started := by
  refine ⟨?_, ?_, ?_, ?_, ?_⟩ <;> simp [runMutating, h]

theorem concurrent_run_exclusion_wit :
    (runMutating { lockHeld := true, catalog := [c1Entity] } (fun _ => [])).1 =
      StartOutcome.alreadyRunning ∧
    (runMutating { lockHeld := true, catalog := [c1Entity] } (fun _ => [])).2.catalog =
      [c1Entity] := by
  have h := concurrent_run_exclusion { lockHeld := true, catalog := [c1Entity] }
    (fun _ => []) rfl
  exact ⟨h.1, h.2.2.1⟩

/-! ## Default fuzzy thresholds of the two invocation modes -/

/-- Modelled from the spec (section 6) and the in-repo docs (README.md:
"Default fuzzy matching threshold of 95%"; the plugin's config code is not in
the repository snapshot): the single-click/automatic plugin default. -/
def pluginDefaultFuzzyThreshold : Nat := 95

/-- Modelled from the spec (section 6) and the in-repo docs (SCRIPT.md:
"Lower Default Threshold: 85% for fuzzy matching (vs 95% in plugin)",
"fuzzy_threshold: 85"; the script's config code is not in the repository
snapshot): the manual batch script default. -/
def scriptDefaultFuzzyThreshold : Nat := 85

/-- A candidate scoring 90, between the two default thresholds. -/
def c9Cand : ExternalRecord :=
  { source := "s", external_id := "1", name := "Delta Nine", aliases := []
    url := none, image := none, parent_stub := none }

/-- Claim C9: the plugin (single-click/automatic) invocation defaults to the
stricter fuzzy threshold 95 and the standalone script (manual batch)
invocation defaults to the looser 85; a candidate scoring between them is
accepted under the script default and rejected under the plugin default. -/
theorem default_thresholds_by_mode :
    pluginDefaultFuzzyThreshold = 95 ∧
    scriptDefaultFuzzyThreshold = 85 ∧
    scriptDefaultFuzzyThreshold < pluginDefaultFuzzyThreshold ∧
    matchNames (fun _ _ => 90) "Alpha" [c9Cand] true scriptDefaultFuzzyThreshold
      = MatchResult.fuzzy 90 c9Cand ∧
    matchNames (fun _ _ => 90) "Alpha" [c9Cand] true pluginDefaultFuzzyThreshold
      = MatchResult.unmatched := by
  refine ⟨rfl, rfl, by decide, by decide, by decide⟩

/-! ## The Match Metadata button (src/studioMatcherButton.js and variants) -/

/-- Mirrors the JavaScript `string.split(sep)`: splits at every separator
occurrence, keeping empty segments; the second argument accumulates the
current segment in reverse. -/
def splitCharAux (sep : Char) : List Char → List Char → List String
  | [], acc => [String.mk acc.reverse]
  | c :: cs, acc =>
    if c = sep then String.mk acc.reverse :: splitCharAux sep cs []
    else splitCharAux sep cs (c :: acc)

/-- JavaScript-style split on a single character. -/
def jsSplit (s : String) (sep : Char) : List String :=
  splitCharAux sep s.toList []

/-- From src/studioMatcherButton.js line 20 (likewise part_000 line 28 and
part_002 line 35): `window.location.pathname.split(sep)[2]`, the studio id
taken from element 2 of the slash-split page path. -/
def studioIdFromPath (pathname : String) : String :=
  (jsSplit pathname '/').getD 2 ""

/-- One key/value argument of a runPluginTask request. -/
structure PluginArg where
  key : String
  value : String
deriving DecidableEq, Repr

/-- A runPluginTask GraphQL request as built by the button click handlers. -/
structure PluginTaskRequest where
  plugin_id : String
  task_name : String
  args : List PluginArg
deriving DecidableEq, Repr

/-- From src/studioMatcherButton.js lines 18-65: the single request submitted
by the Match Metadata button's click handler. -/
def matchStudioRequest (pathname : String) : PluginTaskRequest :=
  { plugin_id := "StashStudioMetadataMatcher"
    task_name := "Match Studios"
    args := [ { key := "studio_id", value := studioIdFromPath pathname }
            , { key := "force", value := "true" }
            , { key := "dry_run", value := "false" } ] }

/-- From src/unnamed/part_000 lines 26-73: the StudioSync variant of the same
click handler. -/
def matchStudioRequestStudioSync (pathname : String) : PluginTaskRequest :=
  { plugin_id := "StudioSync"
    task_name := "Match Studios"
    args := [ { key := "studio_id", value := studioIdFromPath pathname }
            , { key := "force", value := "true" }
            , { key := "dry_run", value := "false" } ] }

/-- From src/unnamed/part_002 lines 33-69: the userscript variant, which
invokes the dedicated force-update task with only the studio id. -/
def matchStudioRequestUserscript (pathname : String) : PluginTaskRequest :=
  { plugin_id := "StashStudioMetadataMatcher"
    task_name := "Force Update Single Studio"
    args := [ { key := "studio_id", value := studioIdFromPath pathname } ] }

/-- Claim C10: every Match Metadata button click submits exactly one
plugin-task request, whose studio id is element 2 of the slash-split page
path, with force "true" and dry_run "false" — or the dedicated force-update
task — and no button variant ever issues a dry-run request. -/
theorem match_button_single_force_request (pathname : String) :
    ((matchStudioRequest pathname).args =
      [ { key := "studio_id", value := studioIdFromPath pathname }
      , { key := "force", value := "true" }
      , { key := "dry_run", value := "false" } ]) ∧
    ((matchStudioRequestStudioSync pathname).args =
      (matchStudioRequest pathname).args) ∧
    ((matchStudioRequestUserscript pathname).task_name =
      "Force Update Single Studio") ∧
    ((matchStudioRequestUserscript pathname).args =
      [ { key := "studio_id", value := studioIdFromPath pathname } ]) ∧
    (∀ a ∈ (matchStudioRequest pathname).args,
      a.key = "dry_run" → a.value = "false") ∧
    (∀ a ∈ (matchStudioRequestStudioSync pathname).args,
      a.key = "dry_run" → a.value = "false") ∧
    (∀ a ∈ (matchStudioRequestUserscript pathname).args, a.key ≠ "dry_run") := by
  refine ⟨rfl, rfl, rfl, rfl, ?_, ?_, ?_⟩
  · intro a ha hk
    simp only [matchStudioRequest, List.mem_cons, List.not_mem_nil, or_false] at ha
    rcases ha with h | h | h <;> subst h
    · simp at hk
    · simp at hk
    · rfl
  · intro a ha hk
    simp only [matchStudioRequestStudioSync, List.mem_cons, List.not_mem_nil,
      or_false] at ha
    rcases ha with h | h | h <;> subst h
    · simp at hk
    · simp at hk
    · rfl
  · intro a ha
    simp only [matchStudioRequestUserscript, List.mem_cons, List.not_mem_nil,
      or_false] at ha
    subst ha
    simp

theorem match_button_single_force_request_wit :
    studioIdFromPath "/studios/123/scenes" = "123" ∧
    PluginArg.value { key := "dry_run", value := "false" } = "false" := by
  constructor
  · decide
  · exact (match_button_single_force_request "/studios/123/scenes").2.2.2.2.1
      { key := "dry_run", value := "false" } (by decide) rfl

/-! ## Parent chains, acyclicity, and the cycle guard -/

/-- Iterates the catalog's parent function a given number of steps. -/
def iterParent (p : Nat → Option Nat) : Nat → Nat → Option Nat
  | 0, x => some x
  | k + 1, x =>
    match p x with
    | none => none
    | some y => iterParent p k y

/-- The parent forest is acyclic: no node reaches itself by following parent
links a positive number of times. -/
def Acyclic (p : Nat → Option Nat) : Prop :=
  ∀ x k, 0 < k → iterParent p k x ≠ some x

lemma iterParent_add (p : Nat → Option Nat) (a b x : Nat) :
    iterParent p (a + b) x = (iterParent p a x).bind (iterParent p b) := by
  induction a generalizing x with
  | zero => simp [iterParent]
  | succ n ih =>
    rw [Nat.succ_add]
    cases hp : p x with
    | none => simp [iterParent, hp]
    | some y => simp [iterParent, hp, ih]

lemma iterParent_one (p : Nat → Option Nat) (x : Nat) :
    iterParent p 1 x = p x := by
  cases hp : p x <;> simp [iterParent, hp]

lemma iterParent_isSome_of_le {p : Nat → Option Nat} {j x t : Nat}
    (h : iterParent p j x = some t) {i : Nat} (hij : i ≤ j) :
    ∃ y, iterParent p i x = some y := by
  obtain ⟨d, rfl⟩ := Nat.exists_eq_add_of_le hij
  rw [iterParent_add] at h
  cases hy : iterParent p i x with
  | none => rw [hy] at h; simp at h
  | some y => exact ⟨y, rfl⟩

lemma cycle_of_repeat {p : Nat → Option Nat} {i j x y : Nat} (hij : i < j)
    (hi : iterParent p i x = some y) (hj : iterParent p j x = some y) :
    iterParent p (j - i) y = some y := by
  have hd : j = i + (j - i) := by omega
  rw [hd, iterParent_add, hi] at hj
  simpa using hj

lemma chainMem_iff (p : Nat → Option Nat) (fuel x t : Nat) :
    chainMem p fuel x t = true ↔ ∃ j, j ≤ fuel ∧ iterParent p j x = some t := by
  induction fuel generalizing x with
  | zero =>
    simp only [chainMem, beq_iff_eq]
    constructor
    · intro h
      exact ⟨0, le_refl 0, by rw [h]; rfl⟩
    · rintro ⟨j, hj, hit⟩
      have hj0 : j = 0 := Nat.le_zero.mp hj
      subst hj0
      simpa [iterParent] using hit
  | succ fuel ih =>
    cases hp : p x with
    | none =>
      simp only [chainMem, hp, Bool.or_false, beq_iff_eq]
      constructor
      · intro h
        exact ⟨0, Nat.zero_le _, by rw [h]; rfl⟩
      · rintro ⟨j, hj, hit⟩
        cases j with
        | zero => simpa [iterParent] using hit
        | succ i => simp [iterParent, hp] at hit
    | some y =>
      simp only [chainMem, hp, Bool.or_eq_true, beq_iff_eq, ih]
      constructor
      · rintro (h | ⟨j, hj, hit⟩)
        · exact ⟨0, Nat.zero_le _, by rw [h]; rfl⟩
        · exact ⟨j + 1, by omega, by simp [iterParent, hp, hit]⟩
      · rintro ⟨j, hj, hit⟩
        cases j with
        | zero => exact Or.inl (by simpa [iterParent] using hit)
        | succ i =>
          right
          refine ⟨i, by omega, ?_⟩
          simpa [iterParent, hp] using hit

lemma find?_congr {α : Type} (l : List α) (p q : α → Bool)
    (h : ∀ x ∈ l, p x = q x) : l.find? p = l.find? q := by
  induction l with
  | nil => rfl
  | cons a t ih =>
    have ha := h a (List.mem_cons_self a t)
    cases hp : p a with
    | true => simp [List.find?_cons, hp, ha ▸ hp]
    | false =>
      simp only [List.find?_cons, hp, ha ▸ hp]
      exact ih (fun x hx => h x (List.mem_cons_of_mem a hx))

lemma find?_map_pred {α β : Type} (g : α → β) (l : List α) (p : β → Bool) :
    (l.map g).find? p = (l.find? (fun x => p (g x))).map g := by
  induction l with
  | nil => rfl
  | cons a t ih => cases hp : p (g a) <;> simp [List.find?_cons, hp, ih]

lemma find?_append_of_some {α : Type} {l1 : List α} {p : α → Bool} {a : α}
    (h : l1.find? p = some a) (l2 : List α) : (l1 ++ l2).find? p = some a := by
  induction l1 with
  | nil => simp at h
  | cons b t ih =>
    rw [List.cons_append]
    rw [List.find?_cons] at h
    rw [List.find?_cons]
    cases hp : p b with
    | true => rw [hp] at h; exact h
    | false => rw [hp] at h; exact ih h

lemma find?_append_of_none {α : Type} {l1 : List α} {p : α → Bool}
    (h : l1.find? p = none) (l2 : List α) :
    (l1 ++ l2).find? p = l2.find? p := by
  induction l1 with
  | nil => rfl
  | cons b t ih =>
    rw [List.cons_append]
    rw [List.find?_cons] at h
    rw [List.find?_cons]
    cases hp : p b with
    | true => rw [hp] at h; cases h
    | false => rw [hp] at h; exact ih h

lemma find?_isSome_of_mem {α : Type} {l : List α} {p : α → Bool} {a : α}
    (ha : a ∈ l) (hp : p a = true) : (l.find? p).isSome := by
  induction l with
  | nil => cases ha
  | cons b t ih =>
    rw [List.find?_cons]
    cases hb : p b with
    | true => rfl
    | false =>
      rcases List.mem_cons.mp ha with he | hm
      · rw [← he] at hb
        rw [hp] at hb
        cases hb
      · exact ih hm

lemma parentOf_mem {catalog : List LocalEntity} {x y : Nat}
    (h : parentOf catalog x = some y) : x ∈ catalog.map LocalEntity.id := by
  unfold parentOf at h
  cases hf : catalog.find? (fun z => z.id == x) with
  | none => rw [hf] at h; simp at h
  | some w =>
    have hw := List.find?_some hf
    simp only [beq_iff_eq] at hw
    have hmem := List.mem_of_find?_eq_some hf
    exact hw ▸ List.mem_map_of_mem LocalEntity.id hmem

lemma iter_le_length {catalog : List LocalEntity}
    (hA : Acyclic (parentOf catalog)) {j x t : Nat}
    (h : iterParent (parentOf catalog) j x = some t) : j ≤ catalog.length := by
  by_contra hgt
  push_neg at hgt
  have hsome : ∀ i, i ≤ j → ∃ y, iterParent (parentOf catalog) i x = some y :=
    fun i hi => iterParent_isSome_of_le h hi
  have hinj : ∀ i1 i2, i1 < j → i2 < j → i1 ≠ i2 →
      (iterParent (parentOf catalog) i1 x).getD 0 ≠
        (iterParent (parentOf catalog) i2 x).getD 0 := by
    intro i1 i2 h1 h2 hne
    obtain ⟨y1, hy1⟩ := hsome i1 (le_of_lt h1)
    obtain ⟨y2, hy2⟩ := hsome i2 (le_of_lt h2)
    rw [hy1, hy2]
    simp only [Option.getD_some]
    intro hcon
    subst hcon
    rcases Nat.lt_or_ge i1 i2 with hlt | hge
    · have := cycle_of_repeat hlt hy1 hy2
      exact hA y1 (i2 - i1) (by omega) this
    · have hlt2 : i2 < i1 := by omega
      have := cycle_of_repeat hlt2 hy2 hy1
      exact hA y1 (i1 - i2) (by omega) this
  have hdom : ∀ i, i < j →
      (iterParent (parentOf catalog) i x).getD 0 ∈ catalog.map LocalEntity.id := by
    intro i hi
    obtain ⟨y, hy⟩ := hsome i (le_of_lt hi)
    obtain ⟨z, hz⟩ := hsome (i + 1) (by omega)
    have hstep : parentOf catalog y = some z := by
      have h1 : iterParent (parentOf catalog) (i + 1) x =
          (iterParent (parentOf catalog) i x).bind (iterParent (parentOf catalog) 1) :=
        iterParent_add _ i 1 x
      rw [hz, hy] at h1
      rw [Option.some_bind, iterParent_one] at h1
      exact h1.symm
    rw [hy]
    simpa using parentOf_mem hstep
  have hnodup : ((List.range j).map
      (fun i => (iterParent (parentOf catalog) i x).getD 0)).Nodup := by
    apply List.Nodup.map_on
    · intro i1 h1 i2 h2 heq
      by_contra hne
      exact hinj i1 i2 (List.mem_range.mp h1) (List.mem_range.mp h2) hne heq
    · exact List.nodup_range j
  have hsub : ((List.range j).map
      (fun i => (iterParent (parentOf catalog) i x).getD 0)) ⊆
      catalog.map LocalEntity.id := by
    intro v hv
    obtain ⟨i, hi, rfl⟩ := List.mem_map.mp hv
    exact hdom i (List.mem_range.mp hi)
  have hlen := (List.subperm_of_subset hnodup hsub).length_le
  simp only [List.length_map, List.length_range] at hlen
  omega

lemma not_reachable_of_chainMem_false {catalog : List LocalEntity}
    (hA : Acyclic (parentOf catalog)) {c t : Nat}
    (hc : chainMem (parentOf catalog) catalog.length c t = false) :
    ∀ j, iterParent (parentOf catalog) j c ≠ some t := by
  intro j hj
  have hle := iter_le_length hA hj
  have htrue : chainMem (parentOf catalog) catalog.length c t = true :=
    (chainMem_iff _ _ _ _).mpr ⟨j, hle, hj⟩
  rw [hc] at htrue
  cases htrue

lemma iter_eq_of_avoid {p : Nat → Option Nat} {tgt c : Nat} :
    ∀ {k x : Nat},
    (∀ j, j < k →
      iterParent (fun i => if i = tgt then some c else p i) j x ≠ some tgt) →
    iterParent (fun i => if i = tgt then some c else p i) k x =
      iterParent p k x := by
  intro k
  induction k with
  | zero => intro x _; rfl
  | succ n ih =>
    intro x h
    have hx : x ≠ tgt := by
      intro hc
      exact h 0 (by omega) (by rw [hc]; rfl)
    show (match (if x = tgt then some c else p x) with
      | none => none
      | some y => iterParent _ n y) = _
    rw [if_neg hx]
    cases hp : p x with
    | none => simp [iterParent, hp]
    | some y =>
      have hy : ∀ j, j < n →
          iterParent (fun i => if i = tgt then some c else p i) j y ≠ some tgt := by
        intro j hj hit
        apply h (j + 1) (by omega)
        show (match (if x = tgt then some c else p x) with
          | none => none
          | some z => iterParent _ j z) = some tgt
        rw [if_neg hx, hp]
        exact hit
      show iterParent _ n y = iterParent p (n + 1) x
      rw [ih hy]
      simp [iterParent, hp]

lemma cycle_rotate {p : Nat → Option Nat} {k j x tgt : Nat}
    (hk : iterParent p k x = some x) (hj : iterParent p j x = some tgt)
    (hjk : j ≤ k) : iterParent p k tgt = some tgt := by
  have h1 : iterParent p (k - j) tgt = some x := by
    have hd : j + (k - j) = k := by omega
    rw [← hd, iterParent_add, hj] at hk
    simpa using hk
  have h2 : iterParent p ((k - j) + j) tgt = some tgt := by
    rw [iterParent_add, h1]
    simpa using hj
  have hd2 : (k - j) + j = k := by omega
  rwa [hd2] at h2

lemma acyclic_update {p : Nat → Option Nat} {tgt c : Nat}
    (hA : Acyclic p) (hno : ∀ j, iterParent p j c ≠ some tgt) :
    Acyclic (fun i => if i = tgt then some c else p i) := by
  have key : ∀ m, iterParent (fun i => if i = tgt then some c else p i) m c ≠
      some tgt := by
    intro m
    induction m using Nat.strong_induction_on with
    | _ m ih =>
      intro hm
      by_cases hall : ∀ j, j < m →
          iterParent (fun i => if i = tgt then some c else p i) j c ≠ some tgt
      · rw [iter_eq_of_avoid hall] at hm
        exact hno m hm
      · push_neg at hall
        obtain ⟨j, hjm, hj⟩ := hall
        exact ih j hjm hj
  intro x k hk hcyc
  by_cases hpass : ∃ j, j < k ∧
      iterParent (fun i => if i = tgt then some c else p i) j x = some tgt
  · obtain ⟨j, hjk, hj⟩ := hpass
    have hcyc2 := cycle_rotate hcyc hj (le_of_lt hjk)
    cases k with
    | zero => omega
    | succ k0 =>
      have hstep : iterParent (fun i => if i = tgt then some c else p i) k0 c =
          some tgt := by
        have h3 := hcyc2
        show _ = some tgt
        rw [show iterParent (fun i => if i = tgt then some c else p i)
            (k0 + 1) tgt = iterParent (fun i => if i = tgt then some c else p i)
            k0 c from ?_] at h3
        · exact h3
        · show (match (if tgt = tgt then some c else p tgt) with
            | none => none
            | some y => iterParent _ k0 y) = _
          rw [if_pos rfl]
      exact key k0 hstep
  · push_neg at hpass
    have hall : ∀ j, j < k →
        iterParent (fun i => if i = tgt then some c else p i) j x ≠ some tgt :=
      fun j hj => hpass j hj
    rw [iter_eq_of_avoid hall] at hcyc
    exact hA x k hk hcyc

lemma applyFieldChanges_id (x : LocalEntity) (plan : MergePlan) :
    (applyFieldChanges x plan).id = x.id := rfl

lemma applyFieldChanges_parent (x : LocalEntity) (plan : MergePlan) :
    (applyFieldChanges x plan).parent_id = x.parent_id := rfl

lemma applyFieldChanges_name (x : LocalEntity) (plan : MergePlan) :
    (applyFieldChanges x plan).name = x.name := rfl

lemma parentOf_map_congr (catalog : List LocalEntity) (g : LocalEntity → LocalEntity)
    (hid : ∀ x, (g x).id = x.id) (i : Nat) :
    parentOf (catalog.map g) i =
      ((catalog.find? (fun x => x.id == i)).map g).bind (fun x => x.parent_id) := by
  unfold parentOf
  rw [find?_map_pred]
  rw [find?_congr catalog (fun x => (g x).id == i) (fun x => x.id == i)
    (fun x _ => by simp only [hid])]

lemma parentOf_map_preserved (catalog : List LocalEntity)
    (g : LocalEntity → LocalEntity) (hid : ∀ x, (g x).id = x.id)
    (hpar : ∀ x, (g x).parent_id = x.parent_id) :
    parentOf (catalog.map g) = parentOf catalog := by
  funext i
  rw [parentOf_map_congr catalog g hid i]
  unfold parentOf
  cases hf : catalog.find? (fun x => x.id == i) with
  | none => rfl
  | some w => simp [hpar]

lemma parentOf_map_update (catalog : List LocalEntity)
    (g : LocalEntity → LocalEntity) (tgt : Nat) (pid : Option Nat)
    (hid : ∀ x, (g x).id = x.id)
    (hpar : ∀ x, (g x).parent_id = if x.id == tgt then pid else x.parent_id)
    (hfound : (catalog.find? (fun x => x.id == tgt)).isSome) :
    parentOf (catalog.map g) =
      fun i => if i = tgt then pid else parentOf catalog i := by
  funext i
  rw [parentOf_map_congr catalog g hid i]
  by_cases hie : i = tgt
  · subst hie
    cases hf : catalog.find? (fun x => x.id == i) with
    | none => rw [hf] at hfound; simp at hfound
    | some w =>
      have hw := List.find?_some hf
      simp only [beq_iff_eq] at hw
      simp only [Option.map_some', Option.some_bind, hpar w, hw,
        beq_self_eq_true, if_true, if_pos rfl]
  · cases hf : catalog.find? (fun x => x.id == i) with
    | none => simp [parentOf, hf, hie]
    | some w =>
      have hw := List.find?_some hf
      simp only [beq_iff_eq] at hw
      have hwt : (w.id == tgt) = false := by
        rw [hw]
        exact beq_eq_false_iff_ne.mpr hie
      simp only [Option.map_some', Option.some_bind, hpar w, hwt,
        if_neg hie, parentOf, hf]
      simp

lemma parentOf_eq_none_of_fresh (catalog : List LocalEntity) {i : Nat}
    (hfresh : ∀ x ∈ catalog, x.id ≠ i) : parentOf catalog i = none := by
  unfold parentOf
  have hnone : catalog.find? (fun x => x.id == i) = none := by
    rw [List.find?_eq_none]
    intro x hx
    simp [hfresh x hx]
  rw [hnone]
  rfl

lemma parentOf_append_fresh (catalog : List LocalEntity) (w : LocalEntity)
    (hfresh : ∀ x ∈ catalog, x.id ≠ w.id) :
    parentOf (catalog ++ [w]) =
      fun i => if i = w.id then w.parent_id else parentOf catalog i := by
  funext i
  by_cases hie : i = w.id
  · subst hie
    have hnone : catalog.find? (fun x => x.id == w.id) = none := by
      rw [List.find?_eq_none]
      intro x hx
      simp [hfresh x hx]
    unfold parentOf
    rw [find?_append_of_none hnone]
    simp [List.find?_cons]
  · unfold parentOf
    cases hf : catalog.find? (fun x => x.id == i) with
    | none =>
      rw [find?_append_of_none hf]
      have hw : (w.id == i) = false := beq_eq_false_iff_ne.mpr (fun hc => hie hc.symm)
      simp [List.find?_cons, hw, hie]
    | some v =>
      rw [find?_append_of_some hf]
      simp [hie]

lemma le_foldr_max_id {catalog : List LocalEntity} {x : LocalEntity}
    (h : x ∈ catalog) : x.id ≤ catalog.foldr (fun y m => max y.id m) 0 := by
  induction catalog with
  | nil => cases h
  | cons a t ih =>
    simp only [List.foldr_cons]
    rcases List.mem_cons.mp h with he | hm
    · rw [he]
      exact le_max_left _ _
    · exact le_trans (ih hm) (le_max_right _ _)

lemma lt_freshId {catalog : List LocalEntity} {x : LocalEntity}
    (h : x ∈ catalog) : x.id < freshId catalog := by
  have := le_foldr_max_id h
  unfold freshId
  omega

lemma freshId_map (catalog : List LocalEntity) (g : LocalEntity → LocalEntity)
    (hid : ∀ x, (g x).id = x.id) : freshId (catalog.map g) = freshId catalog := by
  unfold freshId
  congr 1
  induction catalog with
  | nil => rfl
  | cons a t ih => simp only [List.map_cons, List.foldr_cons, hid, ih]

/-! ## A decidable acyclicity check for concrete catalogs -/

/-- A bounded, executable acyclicity check: no catalog node returns to itself
in at most `catalog.length` parent steps. -/
def acyclicCheck (catalog : List LocalEntity) : Bool :=
  (catalog.map LocalEntity.id).all (fun x =>
    (List.range catalog.length).all (fun k =>
      decide (iterParent (parentOf catalog) (k + 1) x ≠ some x)))

lemma acyclic_of_check (catalog : List LocalEntity)
    (h : acyclicCheck catalog = true) : Acyclic (parentOf catalog) := by
  have hb : ∀ x ∈ catalog.map LocalEntity.id, ∀ k, 0 < k → k ≤ catalog.length →
      iterParent (parentOf catalog) k x ≠ some x := by
    intro x hx k hk hkl
    have h1 := (List.all_eq_true.mp h) x hx
    have h2 := (List.all_eq_true.mp h1) (k - 1)
      (List.mem_range.mpr (by omega))
    rw [decide_eq_true_eq] at h2
    have hke : k - 1 + 1 = k := by omega
    rwa [hke] at h2
  intro x k hk hit
  have hxmem : x ∈ catalog.map LocalEntity.id := by
    cases k with
    | zero => omega
    | succ k0 =>
      cases hp : parentOf catalog x with
      | none => simp [iterParent, hp] at hit
      | some y => exact parentOf_mem hp
  by_cases hkl : k ≤ catalog.length
  · exact hb x hxmem k hk hkl hit
  · push_neg at hkl
    have hsome : ∀ i, i ≤ catalog.length + 1 →
        ∃ y, iterParent (parentOf catalog) i x = some y := by
      intro i hi
      exact iterParent_isSome_of_le hit (by omega)
    obtain ⟨i, hi, j, hj, hij, heq⟩ :=
      Finset.exists_ne_map_eq_of_card_lt_of_maps_to
        (s := Finset.range (catalog.length + 1))
        (t := (catalog.map LocalEntity.id).toFinset)
        (by
          have hle := List.toFinset_card_le (catalog.map LocalEntity.id)
          simp only [Finset.card_range]
          simp only [List.length_map] at hle
          omega)
        (f := fun i => (iterParent (parentOf catalog) i x).getD 0)
        (by
          intro a ha
          have hal := Finset.mem_range.mp ha
          obtain ⟨y, hy⟩ := hsome a (by omega)
          obtain ⟨z, hz⟩ := hsome (a + 1) (by omega)
          have hstep : parentOf catalog y = some z := by
            have h1 : iterParent (parentOf catalog) (a + 1) x =
                (iterParent (parentOf catalog) a x).bind
                  (iterParent (parentOf catalog) 1) :=
              iterParent_add _ a 1 x
            rw [hz, hy] at h1
            rw [Option.some_bind, iterParent_one] at h1
            exact h1.symm
          show (iterParent (parentOf catalog) a x).getD 0 ∈ _
          rw [hy]
          simpa using List.mem_toFinset.mpr (parentOf_mem hstep))
    have hi2 := Finset.mem_range.mp hi
    have hj2 := Finset.mem_range.mp hj
    obtain ⟨yi, hyi⟩ := hsome i (by omega)
    obtain ⟨yj, hyj⟩ := hsome j (by omega)
    rw [hyi, hyj] at heq
    simp only [Option.getD_some] at heq
    subst heq
    rcases Nat.lt_or_ge i j with hlt | hge
    · have hcyc := cycle_of_repeat hlt hyi hyj
      have hymem : yi ∈ catalog.map LocalEntity.id := by
        cases hp : parentOf catalog yi with
        | none =>
          obtain ⟨d, hd, hdpos⟩ : ∃ d, j = i + d ∧ 0 < d :=
            ⟨j - i, by omega, by omega⟩
          rw [hd, iterParent_add, hyi, Option.some_bind] at hyj
          cases d with
          | zero => omega
          | succ d0 => simp [iterParent, hp] at hyj
        | some z => exact parentOf_mem hp
      exact hb yi hymem (j - i) (by omega) (by omega) hcyc
    · have hlt2 : j < i := by omega
      have hcyc := cycle_of_repeat hlt2 hyj hyi
      have hymem : yi ∈ catalog.map LocalEntity.id := by
        cases hp : parentOf catalog yi with
        | none =>
          obtain ⟨d, hd, hdpos⟩ : ∃ d, i = j + d ∧ 0 < d :=
            ⟨i - j, by omega, by omega⟩
          rw [hd, iterParent_add, hyj, Option.some_bind] at hyi
          cases d with
          | zero => omega
          | succ d0 => simp [iterParent, hp] at hyi
        | some z => exact parentOf_mem hp
      exact hb yi hymem (i - j) (by omega) (by omega) hcyc

/-! ## How applying a plan transforms the parent forest -/

lemma fieldsMap_id (plan : MergePlan) (eid : Nat) (x : LocalEntity) :
    (if x.id == eid then applyFieldChanges x plan else x).id = x.id := by
  cases hb : (x.id == eid) <;> simp [hb, applyFieldChanges_id]

lemma fieldsMap_parent (plan : MergePlan) (eid : Nat) (x : LocalEntity) :
    (if x.id == eid then applyFieldChanges x plan else x).parent_id =
      x.parent_id := by
  cases hb : (x.id == eid) <;> simp [hb, applyFieldChanges_parent]

lemma linkMap_id (p eid : Nat) (x : LocalEntity) :
    (if x.id == eid then { x with parent_id := some p } else x).id = x.id := by
  cases hb : (x.id == eid) <;> simp [hb]

lemma linkMap_parent (p eid : Nat) (x : LocalEntity) :
    (if x.id == eid then { x with parent_id := some p } else x).parent_id =
      if x.id == eid then some p else x.parent_id := by
  cases hb : (x.id == eid) <;> simp [hb]

lemma backfillMap_id (s v : String) (pid : Nat) (x : LocalEntity) :
    (if x.id == pid then { x with external_ids := setSource x.external_ids s v }
      else x).id = x.id := by
  cases hb : (x.id == pid) <;> simp [hb]

lemma backfillMap_parent (s v : String) (pid : Nat) (x : LocalEntity) :
    (if x.id == pid then { x with external_ids := setSource x.external_ids s v }
      else x).parent_id = x.parent_id := by
  cases hb : (x.id == pid) <;> simp [hb]

lemma parentOf_applyFields (catalog : List LocalEntity) (eid : Nat)
    (plan : MergePlan) :
    parentOf (applyFields catalog eid plan) = parentOf catalog :=
  parentOf_map_preserved _ _ (fieldsMap_id plan eid) (fieldsMap_parent plan eid)

lemma parentOf_applyLink (catalog : List LocalEntity) (eid p : Nat)
    (hfound : (catalog.find? (fun x => x.id == eid)).isSome) :
    parentOf (applyLink catalog eid p) =
      fun i => if i = eid then some p else parentOf catalog i :=
  parentOf_map_update catalog _ eid (some p) (linkMap_id p eid)
    (linkMap_parent p eid) hfound

lemma parentOf_applyBackfill (catalog : List LocalEntity) (pid : Nat)
    (s v : String) :
    parentOf (applyBackfill catalog pid s v) = parentOf catalog :=
  parentOf_map_preserved _ _ (backfillMap_id s v pid) (backfillMap_parent s v pid)

lemma applyFields_id_mem {catalog : List LocalEntity} {e : LocalEntity}
    (hmem : e ∈ catalog) (eid : Nat) (plan : MergePlan) :
    ((applyFields catalog eid plan).find? (fun x => x.id == e.id)).isSome := by
  apply find?_isSome_of_mem
    (List.mem_map_of_mem (fun x => if x.id == eid then applyFieldChanges x plan else x) hmem)
  show ((if e.id == eid then applyFieldChanges e plan else e).id == e.id) = true
  rw [fieldsMap_id plan eid e]
  exact beq_self_eq_true e.id

lemma freshId_applyFields (catalog : List LocalEntity) (eid : Nat)
    (plan : MergePlan) :
    freshId (applyFields catalog eid plan) = freshId catalog :=
  freshId_map catalog _ (fieldsMap_id plan eid)

lemma applyPlan_parent_none (catalog : List LocalEntity) (eid : Nat)
    (plan : MergePlan) (hnone : plan.parent_change = none) :
    applyPlan catalog eid plan = applyFields catalog eid plan := by
  unfold applyPlan
  rw [hnone]

lemma parentOf_applyPlan_none (catalog : List LocalEntity) (eid : Nat)
    (plan : MergePlan) (hnone : plan.parent_change = none) :
    parentOf (applyPlan catalog eid plan) = parentOf catalog := by
  rw [applyPlan_parent_none _ _ _ hnone]
  exact parentOf_applyFields catalog eid plan

lemma parentOf_applyPlan_link (catalog : List LocalEntity) (e : LocalEntity)
    (plan : MergePlan) (p : Nat) (bf : Option (String × String))
    (hmem : e ∈ catalog)
    (hsome : plan.parent_change = some (ParentChange.linkExisting p bf)) :
    parentOf (applyPlan catalog e.id plan) =
      fun i => if i = e.id then some p else parentOf catalog i := by
  have hfound := applyFields_id_mem hmem e.id plan
  unfold applyPlan
  rw [hsome]
  cases bf with
  | none =>
    show parentOf (applyLink (applyFields catalog e.id plan) e.id p) = _
    rw [parentOf_applyLink _ _ _ hfound, parentOf_applyFields]
  | some sv =>
    obtain ⟨s2, v⟩ := sv
    show parentOf (applyBackfill
      (applyLink (applyFields catalog e.id plan) e.id p) p s2 v) = _
    rw [parentOf_applyBackfill, parentOf_applyLink _ _ _ hfound,
      parentOf_applyFields]

lemma parentOf_applyPlan_create (catalog : List LocalEntity) (e : LocalEntity)
    (plan : MergePlan) (n : String) (xid : Option (String × String))
    (hmem : e ∈ catalog)
    (hsome : plan.parent_change = some (ParentChange.createAndLink n xid)) :
    parentOf (applyPlan catalog e.id plan) =
      fun i => if i = e.id then some (freshId catalog) else parentOf catalog i := by
  have hne : freshId catalog ≠ e.id := by
    have := lt_freshId hmem
    omega
  unfold applyPlan
  rw [hsome]
  show parentOf (applyLink (applyFields catalog e.id plan ++
    [newParentEntity (freshId (applyFields catalog e.id plan)) n xid]) e.id
    (freshId (applyFields catalog e.id plan))) = _
  rw [freshId_applyFields]
  unfold applyLink
  rw [List.map_append]
  have hglnp : List.map (fun x => if x.id == e.id
      then { x with parent_id := some (freshId catalog) } else x)
      [newParentEntity (freshId catalog) n xid] =
      [newParentEntity (freshId catalog) n xid] := by
    have hne2 : (newParentEntity (freshId catalog) n xid).id ≠ e.id := by
      show freshId catalog ≠ e.id
      exact hne
    simp [hne2]
  rw [hglnp]
  show parentOf (applyLink (applyFields catalog e.id plan) e.id
    (freshId catalog) ++ [newParentEntity (freshId catalog) n xid]) = _
  have hfresh : ∀ x ∈ applyLink (applyFields catalog e.id plan) e.id
      (freshId catalog), x.id ≠ (newParentEntity (freshId catalog) n xid).id := by
    intro x hx
    obtain ⟨y, hy, rfl⟩ := List.mem_map.mp hx
    obtain ⟨z, hz, rfl⟩ := List.mem_map.mp hy
    show ((fun w => if w.id == e.id
      then { w with parent_id := some (freshId catalog) } else w)
      ((fun w => if w.id == e.id then applyFieldChanges w plan else w) z)).id ≠ _
    rw [linkMap_id, fieldsMap_id]
    show z.id ≠ freshId catalog
    have := lt_freshId hz
    omega
  rw [parentOf_append_fresh _ _ hfresh]
  rw [parentOf_applyLink _ _ _ (applyFields_id_mem hmem e.id plan),
    parentOf_applyFields]
  funext i
  show (if i = freshId catalog then (none : Option Nat)
    else if i = e.id then some (freshId catalog) else parentOf catalog i) =
    (if i = e.id then some (freshId catalog) else parentOf catalog i)
  by_cases hi : i = freshId catalog
  · subst hi
    rw [if_pos rfl, if_neg hne]
    have hnp : parentOf catalog (freshId catalog) = none := by
      apply parentOf_eq_none_of_fresh
      intro x hx
      have := lt_freshId hx
      omega
    rw [hnp]
  · rw [if_neg hi]

/-- Claim C5: the Parent Resolver walks the parent chain upward from the
candidate parent; when the entity itself occurs in that chain, the parent
change is rejected as a hierarchy conflict for that entity only while its
field changes still apply, and consequently no engine operation ever
introduces a cycle into the parent forest. -/
theorem parent_resolver_cycle_safety (catalog : List LocalEntity)
    (e : LocalEntity) (matchList : List (String × MatchResult)) (mode : Mode)
    (hmem : e ∈ catalog) (hA : Acyclic (parentOf catalog)) :
    (∀ s stub p bf,
      pickParentStub (matchedRecords matchList) = some (s, stub) →
      resolveParent catalog s stub = ParentChange.linkExisting p bf →
      e.parent_id ≠ some p →
      chainMem (parentOf catalog) catalog.length p e.id = true →
      (merge catalog e matchList mode).parent_change = none ∧
      (merge catalog e matchList mode).hierarchy_conflict = true) ∧
    ((merge catalog e matchList mode).parent_change = none →
      applyPlan catalog e.id (merge catalog e matchList mode) =
        catalog.map (fun x => if x.id == e.id
          then applyFieldChanges x (merge catalog e matchList mode) else x)) ∧
    Acyclic (parentOf (applyPlan catalog e.id (merge catalog e matchList mode))) := by
  have hpc : (merge catalog e matchList mode).parent_change =
      (parentChangeFor catalog e (matchedRecords matchList)).1 := rfl
  have hhc : (merge catalog e matchList mode).hierarchy_conflict =
      (parentChangeFor catalog e (matchedRecords matchList)).2 := rfl
  refine ⟨?_, ?_, ?_⟩
  · intro s stub p bf hpick hres hne hchain
    have hval : parentChangeFor catalog e (matchedRecords matchList) =
        (none, true) := by
      simp [parentChangeFor, hpick, hres, hne, hchain]
    exact ⟨by rw [hpc, hval], by rw [hhc, hval]⟩
  · intro hnone
    exact applyPlan_parent_none catalog e.id _ hnone
  · cases hpick : pickParentStub (matchedRecords matchList) with
    | none =>
      have hnone : (merge catalog e matchList mode).parent_change = none := by
        rw [hpc]
        simp [parentChangeFor, hpick]
      rw [parentOf_applyPlan_none catalog e.id _ hnone]
      exact hA
    | some sp =>
      obtain ⟨s, stub⟩ := sp
      cases hres : resolveParent catalog s stub with
      | linkExisting p bf =>
        by_cases heq : e.parent_id = some p
        · have hnone : (merge catalog e matchList mode).parent_change = none := by
            rw [hpc]
            simp [parentChangeFor, hpick, hres, heq]
          rw [parentOf_applyPlan_none catalog e.id _ hnone]
          exact hA
        · by_cases hchain :
              chainMem (parentOf catalog) catalog.length p e.id = true
          · have hnone : (merge catalog e matchList mode).parent_change = none := by
              rw [hpc]
              simp [parentChangeFor, hpick, hres, heq, hchain]
            rw [parentOf_applyPlan_none catalog e.id _ hnone]
            exact hA
          · have hchainf :
                chainMem (parentOf catalog) catalog.length p e.id = false :=
              Bool.eq_false_iff.mpr hchain
            have hsome : (merge catalog e matchList mode).parent_change =
                some (ParentChange.linkExisting p bf) := by
              rw [hpc]
              simp [parentChangeFor, hpick, hres, heq, hchainf]
            rw [parentOf_applyPlan_link catalog e _ p bf hmem hsome]
            exact acyclic_update hA (not_reachable_of_chainMem_false hA hchainf)
      | createAndLink n xid =>
        have hsome : (merge catalog e matchList mode).parent_change =
            some (ParentChange.createAndLink n xid) := by
          rw [hpc]
          simp [parentChangeFor, hpick, hres]
        rw [parentOf_applyPlan_create catalog e _ n xid hmem hsome]
        apply acyclic_update hA
        intro j
        cases j with
        | zero =>
          intro hcon
          have h0 : freshId catalog = e.id := by simpa [iterParent] using hcon
          have := lt_freshId hmem
          omega
        | succ j0 =>
          intro hcon
          have hnp : parentOf catalog (freshId catalog) = none := by
            apply parentOf_eq_none_of_fresh
            intro x hx
            have := lt_freshId hx
            omega
          simp [iterParent, hnp] at hcon

/-- The spec's parent-cycle scenario: local entity X. -/
def c5X : LocalEntity :=
  { id := 1, name := "X", external_ids := [], url := none, image := none
    parent_id := none }

/-- The spec's parent-cycle scenario: Y, whose parent is already X. -/
def c5Y : LocalEntity :=
  { id := 2, name := "Y", external_ids := [("s", "y1")], url := none
    image := none, parent_id := some 1 }

/-- The external record matching X that declares Y as X's parent. -/
def c5Rec : ExternalRecord :=
  { source := "s", external_id := "x1", name := "X", aliases := []
    url := some "https://x.example", image := none
    parent_stub := some { external_id := some "y1", name := "Y" } }

/-- The two-entity catalog of the parent-cycle scenario. -/
def c5Catalog : List LocalEntity := [c5X, c5Y]

/-- The match list of the parent-cycle scenario. -/
def c5Matches : List (String × MatchResult) := [("s", MatchResult.exact c5Rec)]

theorem parent_resolver_cycle_safety_wit :
    (merge c5Catalog c5X c5Matches Mode.fill_missing).parent_change = none ∧
    (merge c5Catalog c5X c5Matches Mode.fill_missing).hierarchy_conflict = true ∧
    (merge c5Catalog c5X c5Matches Mode.fill_missing).url_change =
      some "https://x.example" ∧
    Acyclic (parentOf (applyPlan c5Catalog c5X.id
      (merge c5Catalog c5X c5Matches Mode.fill_missing))) := by
  have hA : Acyclic (parentOf c5Catalog) := acyclic_of_check c5Catalog (by decide)
  have h := parent_resolver_cycle_safety c5Catalog c5X c5Matches
    Mode.fill_missing (by decide) hA
  have ha := h.1 "s" { external_id := some "y1", name := "Y" } 2 none
    (by decide) (by decide) (by decide) (by decide)
  exact ⟨ha.1, ha.2, by decide, h.2.2⟩

/-! ## Idempotence: slot and external-id helper lemmas -/

lemma find?_key_map_setSource :
    ∀ (m : List (String × String)) (s v : String),
    m.any (fun p => p.1 == s) = true →
    (m.map (fun p => if p.1 == s then ((s, v) : String × String) else p)).find?
      (fun p => p.1 == s) = some (s, v) := by
  intro m
  induction m with
  | nil =>
    intro s v h
    simp at h
  | cons q t ih =>
    intro s v h
    cases hq : (q.1 == s) with
    | true =>
      have hq2 : q.1 = s := by simpa using hq
      simp [List.find?_cons, hq2]
    | false =>
      have hta : t.any (fun p => p.1 == s) = true := by
        have h2 := h
        simp only [List.any_cons, hq, Bool.false_or] at h2
        exact h2
      have hq2 : ¬(q.1 = s) := by simpa using hq
      simpa [List.find?_cons, hq2] using ih s v hta

lemma lookup_setSource_self (m : List (String × String)) (s v : String) :
    lookupSource (setSource m s v) s = some v := by
  unfold setSource
  by_cases hany : m.any (fun p => p.1 == s) = true
  · rw [if_pos hany]
    unfold lookupSource
    rw [find?_key_map_setSource m s v hany]
    rfl
  · rw [if_neg hany]
    unfold lookupSource
    have hnone : m.find? (fun p => p.1 == s) = none := by
      rw [List.find?_eq_none]
      intro p hp hps
      exact hany (List.any_eq_true.mpr ⟨p, hp, hps⟩)
    rw [find?_append_of_none hnone]
    simp [List.find?_cons]

lemma lookup_setSource_ne (m : List (String × String)) (s v t : String)
    (h : t ≠ s) : lookupSource (setSource m s v) t = lookupSource m t := by
  unfold setSource
  by_cases hany : m.any (fun p => p.1 == s) = true
  · rw [if_pos hany]
    unfold lookupSource
    rw [find?_map_pred]
    rw [find?_congr m (fun p => (if p.1 == s then ((s, v) : String × String)
      else p).1 == t) (fun p => p.1 == t) ?hcon]
    case hcon =>
      intro p hp
      cases hps : (p.1 == s) with
      | true =>
        have hp1 : p.1 = s := by simpa using hps
        have hst : ((s : String) == t) = false :=
          beq_eq_false_iff_ne.mpr (fun hc => h hc.symm)
        simp [hps, hp1, hst]
      | false => simp [hps]
    cases hf : m.find? (fun p => p.1 == t) with
    | none => simp
    | some w =>
      have hw := List.find?_some hf
      simp only [beq_iff_eq] at hw
      have hne2 : ¬(w.1 = s) := by
        rw [hw]
        exact fun hc => h hc
      simp [hne2]
  · rw [if_neg hany]
    unfold lookupSource
    cases hf : m.find? (fun p => p.1 == t) with
    | none =>
      rw [find?_append_of_none hf]
      have hts : (((s, v) : String × String).1 == t) = false :=
        beq_eq_false_iff_ne.mpr (fun hc => h hc.symm)
      simp [List.find?_cons, hts]
    | some w => rw [find?_append_of_some hf]

lemma lookup_foldl_setSource_of_not_key
    (changes : List (String × String)) (cur : List (String × String)) (s : String)
    (h : ∀ p ∈ changes, p.1 ≠ s) :
    lookupSource (changes.foldl (fun m q => setSource m q.1 q.2) cur) s =
      lookupSource cur s := by
  induction changes generalizing cur with
  | nil => rfl
  | cons q t ih =>
    simp only [List.foldl_cons]
    rw [ih (setSource cur q.1 q.2) (fun p hp => h p (List.mem_cons_of_mem q hp))]
    exact lookup_setSource_ne cur q.1 q.2 s
      (fun hc => h q (List.mem_cons_self q t) hc.symm)

lemma lookup_foldl_setSource_of_mem :
    ∀ (changes : List (String × String)) (cur : List (String × String))
      (s v : String),
    (changes.map Prod.fst).Nodup → (s, v) ∈ changes →
    lookupSource (changes.foldl (fun m q => setSource m q.1 q.2) cur) s =
      some v := by
  intro changes
  induction changes with
  | nil =>
    intro cur s v _ hin
    cases hin
  | cons q t ih =>
    intro cur s v hnd hin
    simp only [List.map_cons, List.nodup_cons] at hnd
    simp only [List.foldl_cons]
    rcases List.mem_cons.mp hin with he | hm
    · subst he
      have hkeys : ∀ p ∈ t, p.1 ≠ s := by
        intro p hp hc
        apply hnd.1
        show s ∈ List.map Prod.fst t
        rw [← hc]
        exact List.mem_map_of_mem Prod.fst hp
      rw [lookup_foldl_setSource_of_not_key t _ s hkeys]
      exact lookup_setSource_self cur s v
    · exact ih (setSource cur q.1 q.2) s v hnd.2 hm

lemma cand_key_unique {α : Type} {cands : List (String × α)}
    (hnd : (cands.map Prod.fst).Nodup) {p q : String × α}
    (hp : p ∈ cands) (hq : q ∈ cands) (h : p.1 = q.1) : p = q :=
  List.inj_on_of_nodup_map hnd hp hq h

lemma slot_idem (mode : Mode) (cur : Option String)
    (cands : List (String × ExternalRecord))
    (f : ExternalRecord → Option String) :
    slotChange mode (match (slotChange mode cur cands f).map Prod.snd with
      | some v => some v
      | none => cur) cands f = none := by
  cases mode with
  | fill_missing =>
    cases hcur : cur with
    | some w => rfl
    | none =>
      cases hfs : firstSupplied f cands with
      | none => simp [slotChange, hfs]
      | some p =>
        obtain ⟨ss, v⟩ := p
        simp [slotChange, hfs]
  | force =>
    cases hfs : firstSupplied f cands with
    | none => simp [slotChange, hfs]
    | some p =>
      obtain ⟨ss, v⟩ := p
      by_cases hc : cur = some v
      · simp [slotChange, hfs, hc]
      · simp [slotChange, hfs, hc]

lemma keys_filterMap_sublist {β γ : Type} (f : String × β → Option (String × γ))
    (l : List (String × β)) (hf : ∀ p q, f p = some q → q.1 = p.1) :
    ((l.filterMap f).map Prod.fst).Sublist (l.map Prod.fst) := by
  induction l with
  | nil => exact List.Sublist.refl []
  | cons p t ih =>
    simp only [List.filterMap_cons, List.map_cons]
    cases hfp : f p with
    | none => exact List.Sublist.cons p.1 ih
    | some q =>
      simp only [List.map_cons]
      rw [hf p q hfp]
      exact List.Sublist.cons₂ p.1 ih

lemma externalIdChangesFor_fill (cur : List (String × String))
    (cands : List (String × ExternalRecord)) :
    externalIdChangesFor Mode.fill_missing cur cands =
      cands.filterMap (fun p => if (lookupSource cur p.1).isSome then none
        else some (p.1, p.2.external_id)) := rfl

lemma externalIdChangesFor_force (cur : List (String × String))
    (cands : List (String × ExternalRecord)) :
    externalIdChangesFor Mode.force cur cands =
      cands.filterMap (fun p =>
        if lookupSource cur p.1 == some p.2.external_id then none
        else some (p.1, p.2.external_id)) := rfl

lemma externalIdChanges_keys_sublist (mode : Mode)
    (cur : List (String × String)) (cands : List (String × ExternalRecord)) :
    ((externalIdChangesFor mode cur cands).map Prod.fst).Sublist
      (cands.map Prod.fst) := by
  cases mode with
  | fill_missing =>
    rw [externalIdChangesFor_fill]
    apply keys_filterMap_sublist
    intro p q hq
    by_cases hl : (lookupSource cur p.1).isSome = true
    · rw [if_pos hl] at hq
      cases hq
    · rw [if_neg hl] at hq
      injection hq with h2
      rw [← h2]
  | force =>
    rw [externalIdChangesFor_force]
    apply keys_filterMap_sublist
    intro p q hq
    by_cases hl : (lookupSource cur p.1 == some p.2.external_id) = true
    · rw [if_pos hl] at hq
      cases hq
    · rw [if_neg hl] at hq
      injection hq with h2
      rw [← h2]

lemma matchedRecords_keys_sublist (matchList : List (String × MatchResult)) :
    ((matchedRecords matchList).map Prod.fst).Sublist
      (matchList.map Prod.fst) := by
  unfold matchedRecords
  apply keys_filterMap_sublist
  intro p q hq
  cases hr : p.2.record? with
  | none => rw [hr] at hq; cases hq
  | some r =>
    rw [hr] at hq
    simp only [Option.map_some'] at hq
    injection hq with h2
    rw [← h2]

lemma mem_externalIdChangesFor {mode : Mode} {cur : List (String × String)}
    {cands : List (String × ExternalRecord)} {q : String × String}
    (h : q ∈ externalIdChangesFor mode cur cands) :
    ∃ c ∈ cands, q = (c.1, c.2.external_id) := by
  cases mode with
  | fill_missing =>
    rw [externalIdChangesFor_fill] at h
    obtain ⟨c, hc, hcf⟩ := List.mem_filterMap.mp h
    refine ⟨c, hc, ?_⟩
    by_cases hl : (lookupSource cur c.1).isSome = true
    · rw [if_pos hl] at hcf
      cases hcf
    · rw [if_neg hl] at hcf
      injection hcf with h2
      rw [← h2]
  | force =>
    rw [externalIdChangesFor_force] at h
    obtain ⟨c, hc, hcf⟩ := List.mem_filterMap.mp h
    refine ⟨c, hc, ?_⟩
    by_cases hl : (lookupSource cur c.1 == some c.2.external_id) = true
    · rw [if_pos hl] at hcf
      cases hcf
    · rw [if_neg hl] at hcf
      injection hcf with h2
      rw [← h2]

lemma externalIdChangesFor_fill_eq_nil (cur2 : List (String × String))
    (cands : List (String × ExternalRecord))
    (h : ∀ p ∈ cands, (lookupSource cur2 p.1).isSome = true) :
    externalIdChangesFor Mode.fill_missing cur2 cands = [] := by
  rw [externalIdChangesFor_fill, List.filterMap_eq_nil_iff]
  intro p hp
  rw [if_pos (h p hp)]

lemma externalIdChangesFor_force_eq_nil (cur2 : List (String × String))
    (cands : List (String × ExternalRecord))
    (h : ∀ p ∈ cands, lookupSource cur2 p.1 = some p.2.external_id) :
    externalIdChangesFor Mode.force cur2 cands = [] := by
  rw [externalIdChangesFor_force, List.filterMap_eq_nil_iff]
  intro p hp
  rw [if_pos (by rw [h p hp]; exact beq_self_eq_true _)]

lemma externalIdChanges_no_key_fill (cur : List (String × String))
    (cands : List (String × ExternalRecord))
    (hnd : (cands.map Prod.fst).Nodup) {p : String × ExternalRecord}
    (hp : p ∈ cands) (hl : (lookupSource cur p.1).isSome = true) :
    ∀ q ∈ externalIdChangesFor Mode.fill_missing cur cands, q.1 ≠ p.1 := by
  intro q hq hc
  rw [externalIdChangesFor_fill] at hq
  obtain ⟨c, hcm, hcf⟩ := List.mem_filterMap.mp hq
  by_cases hl2 : (lookupSource cur c.1).isSome = true
  · rw [if_pos hl2] at hcf
    cases hcf
  · rw [if_neg hl2] at hcf
    injection hcf with h2
    have hc1 : c.1 = p.1 := by
      rw [show c.1 = ((c.1, c.2.external_id) : String × String).1 from rfl, h2, hc]
    have hcp : c = p := cand_key_unique hnd hcm hp hc1
    rw [hcp] at hl2
    exact hl2 hl

lemma externalIdChanges_no_key_force (cur : List (String × String))
    (cands : List (String × ExternalRecord))
    (hnd : (cands.map Prod.fst).Nodup) {p : String × ExternalRecord}
    (hp : p ∈ cands)
    (hl : (lookupSource cur p.1 == some p.2.external_id) = true) :
    ∀ q ∈ externalIdChangesFor Mode.force cur cands, q.1 ≠ p.1 := by
  intro q hq hc
  rw [externalIdChangesFor_force] at hq
  obtain ⟨c, hcm, hcf⟩ := List.mem_filterMap.mp hq
  by_cases hl2 : (lookupSource cur c.1 == some c.2.external_id) = true
  · rw [if_pos hl2] at hcf
    cases hcf
  · rw [if_neg hl2] at hcf
    injection hcf with h2
    have hc1 : c.1 = p.1 := by
      rw [show c.1 = ((c.1, c.2.external_id) : String × String).1 from rfl, h2, hc]
    have hcp : c = p := cand_key_unique hnd hcm hp hc1
    rw [hcp] at hl2
    exact hl2 hl

lemma externalIdChanges_idem (mode : Mode) (cur : List (String × String))
    (cands : List (String × ExternalRecord))
    (hnd : (cands.map Prod.fst).Nodup) :
    externalIdChangesFor mode
      ((externalIdChangesFor mode cur cands).foldl
        (fun m q => setSource m q.1 q.2) cur) cands = [] := by
  have hchnd : ((externalIdChangesFor mode cur cands).map Prod.fst).Nodup :=
    (externalIdChanges_keys_sublist mode cur cands).nodup hnd
  cases mode with
  | fill_missing =>
    apply externalIdChangesFor_fill_eq_nil
    intro p hp
    by_cases hl : (lookupSource cur p.1).isSome = true
    · rw [lookup_foldl_setSource_of_not_key _ cur p.1
        (externalIdChanges_no_key_fill cur cands hnd hp hl)]
      exact hl
    · have hmem2 : (p.1, p.2.external_id) ∈
          externalIdChangesFor Mode.fill_missing cur cands := by
        rw [externalIdChangesFor_fill]
        apply List.mem_filterMap.mpr
        exact ⟨p, hp, by rw [if_neg hl]⟩
      rw [lookup_foldl_setSource_of_mem _ cur p.1 p.2.external_id hchnd hmem2]
      rfl
  | force =>
    apply externalIdChangesFor_force_eq_nil
    intro p hp
    by_cases hl : (lookupSource cur p.1 == some p.2.external_id) = true
    · rw [lookup_foldl_setSource_of_not_key _ cur p.1
        (externalIdChanges_no_key_force cur cands hnd hp hl)]
      simpa using hl
    · have hmem2 : (p.1, p.2.external_id) ∈
          externalIdChangesFor Mode.force cur cands := by
        rw [externalIdChangesFor_force]
        apply List.mem_filterMap.mpr
        exact ⟨p, hp, by rw [if_neg hl]⟩
      exact lookup_foldl_setSource_of_mem _ cur p.1 p.2.external_id hchnd hmem2

lemma pickParentStub_mem {cands : List (String × ExternalRecord)} {s : String}
    {stub : ParentStub} (h : pickParentStub cands = some (s, stub)) :
    ∃ r, (s, r) ∈ cands ∧ r.parent_stub = some stub := by
  unfold pickParentStub at h
  obtain ⟨p, hp, hf⟩ := List.exists_of_findSome?_eq_some h
  cases hps : p.2.parent_stub with
  | none => rw [hps] at hf; cases hf
  | some st =>
    rw [hps] at hf
    simp only [Option.map_some'] at hf
    injection hf with hf2
    have h1 : p.1 = s := congrArg Prod.fst hf2
    have h2 : st = stub := congrArg Prod.snd hf2
    refine ⟨p.2, ?_, ?_⟩
    · rw [← h1]
      exact hp
    · rw [hps, h2]

lemma find?_id_unique {catalog : List LocalEntity} {e : LocalEntity}
    (hmem : e ∈ catalog) (hids : (catalog.map LocalEntity.id).Nodup) :
    catalog.find? (fun x => x.id == e.id) = some e := by
  cases hf : catalog.find? (fun x => x.id == e.id) with
  | none =>
    have h2 := @find?_isSome_of_mem LocalEntity catalog
      (fun x => x.id == e.id) e hmem (beq_self_eq_true e.id)
    rw [hf] at h2
    simp at h2
  | some w =>
    have hw := List.find?_some hf
    simp only [beq_iff_eq] at hw
    have hwe : w = e :=
      List.inj_on_of_nodup_map hids (List.mem_of_find?_eq_some hf) hmem hw
    rw [hwe]

lemma find?_id_map (catalog : List LocalEntity) (g : LocalEntity → LocalEntity)
    (hid : ∀ x, (g x).id = x.id) (i : Nat) :
    (catalog.map g).find? (fun x => x.id == i) =
      (catalog.find? (fun x => x.id == i)).map g := by
  rw [find?_map_pred]
  rw [find?_congr catalog (fun x => (g x).id == i) (fun x => x.id == i)
    (fun x _ => by simp only [hid])]

lemma findByExactName_map (catalog : List LocalEntity)
    (g : LocalEntity → LocalEntity) (hname : ∀ x, (g x).name = x.name)
    (n : String) :
    findByExactName (catalog.map g) n = (findByExactName catalog n).map g := by
  unfold findByExactName
  rw [find?_map_pred]
  rw [find?_congr catalog (fun x => (g x).name == n) (fun x => x.name == n)
    (fun x _ => by simp only [hname])]

lemma findByExternalId_map (catalog : List LocalEntity)
    (g : LocalEntity → LocalEntity) (s eid : String)
    (hpred : ∀ x ∈ catalog,
      (lookupSource (g x).external_ids s == some eid) =
        (lookupSource x.external_ids s == some eid)) :
    findByExternalId (catalog.map g) s eid =
      (findByExternalId catalog s eid).map g := by
  unfold findByExternalId
  rw [find?_map_pred]
  rw [find?_congr catalog
    (fun x => lookupSource (g x).external_ids s == some eid)
    (fun x => lookupSource x.external_ids s == some eid) hpred]

lemma fieldsMap_name (plan : MergePlan) (eid : Nat) (x : LocalEntity) :
    (if x.id == eid then applyFieldChanges x plan else x).name = x.name := by
  cases hb : (x.id == eid) <;> simp [hb, applyFieldChanges_name]

lemma linkMap_name (p eid : Nat) (x : LocalEntity) :
    (if x.id == eid then { x with parent_id := some p } else x).name = x.name := by
  cases hb : (x.id == eid) <;> simp [hb]

lemma backfillMap_name (s v : String) (pid : Nat) (x : LocalEntity) :
    (if x.id == pid then { x with external_ids := setSource x.external_ids s v }
      else x).name = x.name := by
  cases hb : (x.id == pid) <;> simp [hb]

lemma linkMap_ids (p eid : Nat) (x : LocalEntity) :
    (if x.id == eid then { x with parent_id := some p } else x).external_ids =
      x.external_ids := by
  cases hb : (x.id == eid) <;> simp [hb]

lemma linkMap_url (p eid : Nat) (x : LocalEntity) :
    (if x.id == eid then { x with parent_id := some p } else x).url = x.url := by
  cases hb : (x.id == eid) <;> simp [hb]

lemma linkMap_image (p eid : Nat) (x : LocalEntity) :
    (if x.id == eid then { x with parent_id := some p } else x).image =
      x.image := by
  cases hb : (x.id == eid) <;> simp [hb]

lemma backfillMap_url (s v : String) (pid : Nat) (x : LocalEntity) :
    (if x.id == pid then { x with external_ids := setSource x.external_ids s v }
      else x).url = x.url := by
  cases hb : (x.id == pid) <;> simp [hb]

lemma backfillMap_image (s v : String) (pid : Nat) (x : LocalEntity) :
    (if x.id == pid then { x with external_ids := setSource x.external_ids s v }
      else x).image = x.image := by
  cases hb : (x.id == pid) <;> simp [hb]

lemma backfillMap_ids_ne (s v : String) (pid : Nat) (x : LocalEntity)
    (h : (x.id == pid) = false) :
    (if x.id == pid then { x with external_ids := setSource x.external_ids s v }
      else x).external_ids = x.external_ids := by
  simp [h]

lemma ne_of_chainMem_false {pfn : Nat → Option Nat} {fuel p t : Nat}
    (h : chainMem pfn fuel p t = false) : p ≠ t := by
  intro he
  have h2 : chainMem pfn fuel p t = true := by
    rw [chainMem_iff]
    exact ⟨0, Nat.zero_le _, by rw [he]; rfl⟩
  rw [h] at h2
  cases h2

lemma map_id_of_preserved (catalog : List LocalEntity)
    (g : LocalEntity → LocalEntity) (hid : ∀ x, (g x).id = x.id) :
    (catalog.map g).map LocalEntity.id = catalog.map LocalEntity.id := by
  induction catalog with
  | nil => rfl
  | cons a t ih => simp only [List.map_cons, hid, ih]

lemma applyPlan_link_nobf (catalog : List LocalEntity) (eid p : Nat)
    (plan : MergePlan)
    (h : plan.parent_change = some (ParentChange.linkExisting p none)) :
    applyPlan catalog eid plan = applyLink (applyFields catalog eid plan) eid p := by
  unfold applyPlan
  rw [h]

lemma applyPlan_link_backfill (catalog : List LocalEntity) (eid p : Nat)
    (s v : String) (plan : MergePlan)
    (h : plan.parent_change = some (ParentChange.linkExisting p (some (s, v)))) :
    applyPlan catalog eid plan =
      applyBackfill (applyLink (applyFields catalog eid plan) eid p) p s v := by
  unfold applyPlan
  rw [h]

lemma applyPlan_create (catalog : List LocalEntity) (eid : Nat) (n : String)
    (xid : Option (String × String)) (plan : MergePlan)
    (h : plan.parent_change = some (ParentChange.createAndLink n xid)) :
    applyPlan catalog eid plan =
      applyLink (applyFields catalog eid plan ++
        [newParentEntity (freshId (applyFields catalog eid plan)) n xid]) eid
        (freshId (applyFields catalog eid plan)) := by
  unfold applyPlan
  rw [h]

lemma findByEid_fields (catalog : List LocalEntity) (e : LocalEntity)
    (plan : MergePlan) (hids : (catalog.map LocalEntity.id).Nodup)
    (hmem : e ∈ catalog) (s eid : String)
    (hcl : lookupSource e.external_ids s ≠ some eid)
    (hN : lookupSource (applyFieldChanges e plan).external_ids s ≠ some eid) :
    findByExternalId (applyFields catalog e.id plan) s eid =
      (findByExternalId catalog s eid).map
        (fun x => if x.id == e.id then applyFieldChanges x plan else x) := by
  unfold applyFields
  apply findByExternalId_map
  intro x hx
  by_cases hxe : x.id = e.id
  · have hxee : x = e := List.inj_on_of_nodup_map hids hx hmem hxe
    subst hxee
    rw [if_pos (beq_self_eq_true x.id)]
    rw [beq_eq_false_iff_ne.mpr hN, beq_eq_false_iff_ne.mpr hcl]
  · have hb : (x.id == e.id) = false := beq_eq_false_iff_ne.mpr hxe
    simp [hb]

lemma findByEid_link (X : List LocalEntity) (eid2 p : Nat) (s eid : String) :
    findByExternalId (applyLink X eid2 p) s eid =
      (findByExternalId X s eid).map
        (fun x => if x.id == eid2 then { x with parent_id := some p } else x) := by
  unfold applyLink
  apply findByExternalId_map
  intro x hx
  rw [linkMap_ids]

lemma findByName_fields (catalog : List LocalEntity) (eid : Nat)
    (plan : MergePlan) (n : String) :
    findByExactName (applyFields catalog eid plan) n =
      (findByExactName catalog n).map
        (fun x => if x.id == eid then applyFieldChanges x plan else x) :=
  findByExactName_map catalog _ (fieldsMap_name plan eid) n

lemma findByName_link (X : List LocalEntity) (eid2 p : Nat) (n : String) :
    findByExactName (applyLink X eid2 p) n =
      (findByExactName X n).map
        (fun x => if x.id == eid2 then { x with parent_id := some p } else x) :=
  findByExactName_map X _ (linkMap_name p eid2) n

lemma findByName_backfill (X : List LocalEntity) (pid : Nat) (s v : String)
    (n : String) :
    findByExactName (applyBackfill X pid s v) n =
      (findByExactName X n).map
        (fun x => if x.id == pid
          then { x with external_ids := setSource x.external_ids s v } else x) :=
  findByExactName_map X _ (backfillMap_name s v pid) n

lemma findByEid_backfill (X : List LocalEntity) (pid : Nat) (s eid : String)
    (pntX : LocalEntity) (hfind : X.find? (fun x => x.id == pid) = some pntX)
    (hnone : findByExternalId X s eid = none) :
    findByExternalId (applyBackfill X pid s eid) s eid =
      some { pntX with external_ids := setSource pntX.external_ids s eid } := by
  have hall : ∀ x ∈ X, (lookupSource x.external_ids s == some eid) = false := by
    intro x hx
    unfold findByExternalId at hnone
    have h2 := List.find?_eq_none.mp hnone x hx
    exact Bool.eq_false_iff.mpr h2
  unfold applyBackfill findByExternalId
  rw [find?_map_pred]
  rw [find?_congr X
    (fun x => lookupSource (if x.id == pid
      then { x with external_ids := setSource x.external_ids s eid }
      else x).external_ids s == some eid)
    (fun x => x.id == pid) ?hcon]
  case hcon =>
    intro x hx
    show (lookupSource (if x.id == pid
      then { x with external_ids := setSource x.external_ids s eid }
      else x).external_ids s == some eid) = (x.id == pid)
    by_cases hxp : (x.id == pid) = true
    · rw [if_pos hxp, hxp]
      show (lookupSource (setSource x.external_ids s eid) s == some eid) = true
      rw [lookup_setSource_self]
      exact beq_self_eq_true _
    · rw [if_neg hxp]
      rw [hall x hx]
      exact (Bool.eq_false_iff.mpr (fun hc => hxp hc)).symm
  rw [hfind]
  have hpid : pntX.id = pid := by
    have h2 := List.find?_some hfind
    simpa using h2
  simp only [Option.map_some']
  rw [if_pos (by rw [hpid]; exact beq_self_eq_true pid)]

lemma processEntity_plan (catalog2 : List LocalEntity) (eid : Nat)
    (matchList : List (String × MatchResult)) (mode : Mode) (e2 : LocalEntity)
    (hf : catalog2.find? (fun x => x.id == eid) = some e2) :
    (processEntity catalog2 eid matchList mode).1 =
      merge catalog2 e2 matchList mode := by
  unfold processEntity
  rw [hf]

lemma merge_isComplete_of (catalog2 : List LocalEntity) (e2 : LocalEntity)
    (matchList : List (String × MatchResult)) (mode : Mode)
    (hx : externalIdChangesFor mode e2.external_ids
      (matchedRecords matchList) = [])
    (hu : slotChange mode e2.url (matchedRecords matchList)
      (fun r => r.url) = none)
    (hi : slotChange mode e2.image (matchedRecords matchList)
      (fun r => r.image) = none)
    (hp : (parentChangeFor catalog2 e2 (matchedRecords matchList)).1 = none) :
    (merge catalog2 e2 matchList mode).isComplete = true := by
  unfold MergePlan.isComplete
  simp [merge, hx, hu, hi, hp]

lemma findByEid_some_facts {catalog : List LocalEntity} {s eid : String}
    {q : LocalEntity} (h : findByExternalId catalog s eid = some q) :
    q ∈ catalog ∧ lookupSource q.external_ids s = some eid := by
  unfold findByExternalId at h
  refine ⟨List.mem_of_find?_eq_some h, ?_⟩
  have h2 := List.find?_some h
  simpa using h2

lemma findByName_some_facts {catalog : List LocalEntity} {n : String}
    {q : LocalEntity} (h : findByExactName catalog n = some q) :
    q ∈ catalog ∧ q.name = n := by
  unfold findByExactName at h
  refine ⟨List.mem_of_find?_eq_some h, ?_⟩
  have h2 := List.find?_some h
  simpa using h2

lemma run2_parent_none_shape1 (catalog : List LocalEntity) (e : LocalEntity)
    (matchList : List (String × MatchResult)) (mode : Mode) (s : String)
    (stub : ParentStub) (p2 : Nat) (bf2 : Option (String × String))
    (hpick : pickParentStub (matchedRecords matchList) = some (s, stub))
    (hres2 : resolveParent
      (applyFields catalog e.id (merge catalog e matchList mode)) s stub =
      ParentChange.linkExisting p2 bf2)
    (hdec : e.parent_id = some p2 ∨
      chainMem (parentOf catalog) catalog.length p2 e.id = true) :
    (parentChangeFor (applyFields catalog e.id (merge catalog e matchList mode))
      (applyFieldChanges e (merge catalog e matchList mode))
      (matchedRecords matchList)).1 = none := by
  rcases hdec with heq | hchain
  · have heq2 : (applyFieldChanges e (merge catalog e matchList mode)).parent_id =
        some p2 := by
      rw [applyFieldChanges_parent]
      exact heq
    simp [parentChangeFor, hpick, hres2, heq2]
  · by_cases heqq : (applyFieldChanges e (merge catalog e matchList mode)).parent_id =
        some p2
    · simp [parentChangeFor, hpick, hres2, heqq]
    · have hchain2 : chainMem
          (parentOf (applyFields catalog e.id (merge catalog e matchList mode)))
          (applyFields catalog e.id (merge catalog e matchList mode)).length
          p2 e.id = true := by
        rw [parentOf_applyFields]
        rw [show (applyFields catalog e.id (merge catalog e matchList mode)).length
          = catalog.length from List.length_map _ _]
        exact hchain
      simp [parentChangeFor, hpick, hres2, heqq, applyFieldChanges_id, hchain2]

/-- Claim C6: running the engine twice in sequence with unchanged
external-source data is idempotent — for an entity processed by the first
run, the second run's merge plan has empty field changes and no parent
change, so the entity is complete and not reported as updated.  The
hypotheses are data-sanity conditions: the catalog's ids are unique, the
priority list's sources are unique, no source declares a record to be its
own parent, and the entity does not itself hold the declared parent's
external id in the picked source's slot. -/
theorem engine_idempotent (catalog : List LocalEntity) (e : LocalEntity)
    (matchList : List (String × MatchResult)) (mode : Mode)
    (hmem : e ∈ catalog)
    (hids : (catalog.map LocalEntity.id).Nodup)
    (hsrc : (matchList.map Prod.fst).Nodup)
    (hwf : ∀ s r, (s, r) ∈ matchedRecords matchList →
      ∀ stub, r.parent_stub = some stub →
      ∀ eid, stub.external_id = some eid → r.external_id ≠ eid)
    (hclean : ∀ s stub,
      pickParentStub (matchedRecords matchList) = some (s, stub) →
      ∀ eid, stub.external_id = some eid →
      lookupSource e.external_ids s ≠ some eid) :
    ((processEntity (processEntity catalog e.id matchList mode).2 e.id
        matchList mode).1).isComplete = true := by
  have hfind1 : catalog.find? (fun x => x.id == e.id) = some e :=
    find?_id_unique hmem hids
  have hproc1 : (processEntity catalog e.id matchList mode).2 =
      applyPlan catalog e.id (merge catalog e matchList mode) := by
    unfold processEntity
    rw [hfind1]
  rw [hproc1]
  have hcands_nd : ((matchedRecords matchList).map Prod.fst).Nodup :=
    (matchedRecords_keys_sublist matchList).nodup hsrc
  have hX : externalIdChangesFor mode
      (applyFieldChanges e (merge catalog e matchList mode)).external_ids
      (matchedRecords matchList) = [] :=
    externalIdChanges_idem mode e.external_ids (matchedRecords matchList)
      hcands_nd
  have hU : slotChange mode
      (applyFieldChanges e (merge catalog e matchList mode)).url
      (matchedRecords matchList) (fun r => r.url) = none :=
    slot_idem mode e.url (matchedRecords matchList) (fun r => r.url)
  have hI : slotChange mode
      (applyFieldChanges e (merge catalog e matchList mode)).image
      (matchedRecords matchList) (fun r => r.image) = none :=
    slot_idem mode e.image (matchedRecords matchList) (fun r => r.image)
  have hfind2f : (applyFields catalog e.id
      (merge catalog e matchList mode)).find? (fun x => x.id == e.id) =
      some (applyFieldChanges e (merge catalog e matchList mode)) := by
    unfold applyFields
    rw [find?_id_map catalog _
      (fieldsMap_id (merge catalog e matchList mode) e.id) e.id, hfind1]
    simp
  cases hpick : pickParentStub (matchedRecords matchList) with
  | none =>
    have hpc1 : (merge catalog e matchList mode).parent_change = none := by
      show (parentChangeFor catalog e (matchedRecords matchList)).1 = none
      simp [parentChangeFor, hpick]
    rw [applyPlan_parent_none catalog e.id _ hpc1]
    rw [processEntity_plan _ e.id matchList mode _ hfind2f]
    apply merge_isComplete_of _ _ _ _ hX hU hI
    show (parentChangeFor _ _ (matchedRecords matchList)).1 = none
    simp [parentChangeFor, hpick]
  | some sp =>
    obtain ⟨s, stub⟩ := sp
    obtain ⟨r, hrmem, hrstub⟩ := pickParentStub_mem hpick
    cases hstub : stub.external_id with
    | some eid =>
      have hrne : r.external_id ≠ eid := hwf s r hrmem stub hrstub eid hstub
      have hcl : lookupSource e.external_ids s ≠ some eid :=
        hclean s stub hpick eid hstub
      have hchnd : ((externalIdChangesFor mode e.external_ids
          (matchedRecords matchList)).map Prod.fst).Nodup :=
        (externalIdChanges_keys_sublist mode e.external_ids _).nodup hcands_nd
      have hN : lookupSource (applyFieldChanges e
          (merge catalog e matchList mode)).external_ids s ≠ some eid := by
        show lookupSource ((externalIdChangesFor mode e.external_ids
          (matchedRecords matchList)).foldl (fun m q => setSource m q.1 q.2)
          e.external_ids) s ≠ some eid
        by_cases hin : ((s, r.external_id) : String × String) ∈
            externalIdChangesFor mode e.external_ids (matchedRecords matchList)
        · rw [lookup_foldl_setSource_of_mem _ e.external_ids s r.external_id
            hchnd hin]
          intro hc
          injection hc with hc2
          exact hrne hc2
        · have hkeys : ∀ q ∈ externalIdChangesFor mode e.external_ids
              (matchedRecords matchList), q.1 ≠ s := by
            intro q hq hqs
            obtain ⟨c, hcm, hce⟩ := mem_externalIdChangesFor hq
            have hc1 : c.1 = s := by
              rw [show c.1 = ((c.1, c.2.external_id) : String × String).1
                from rfl, ← hce, hqs]
            have hcr : c = (s, r) :=
              cand_key_unique hcands_nd hcm hrmem hc1
            apply hin
            rw [hce, hcr] at hq
            exact hq
          rw [lookup_foldl_setSource_of_not_key _ e.external_ids s hkeys]
          exact hcl
      cases hfbe : findByExternalId catalog s eid with
      | some q =>
        obtain ⟨hqmem, hqpred⟩ := findByEid_some_facts hfbe
        have hres : resolveParent catalog s stub =
            ParentChange.linkExisting q.id none := by
          simp [resolveParent, hstub, hfbe]
        have hqidne : q.id ≠ e.id := by
          intro hc
          have hqe : q = e := List.inj_on_of_nodup_map hids hqmem hmem hc
          rw [hqe] at hqpred
          exact hcl hqpred
        have hqb : (q.id == e.id) = false := beq_eq_false_iff_ne.mpr hqidne
        have hfbe2f : findByExternalId (applyFields catalog e.id
            (merge catalog e matchList mode)) s eid = some q := by
          rw [findByEid_fields catalog e _ hids hmem s eid hcl hN, hfbe]
          simp [hqb, hqidne]
        have hres2 : resolveParent (applyFields catalog e.id
            (merge catalog e matchList mode)) s stub =
            ParentChange.linkExisting q.id none := by
          simp [resolveParent, hstub, hfbe2f]
        by_cases heq : e.parent_id = some q.id
        · have hpc1 : (merge catalog e matchList mode).parent_change = none := by
            show (parentChangeFor catalog e (matchedRecords matchList)).1 = none
            simp [parentChangeFor, hpick, hres, heq]
          rw [applyPlan_parent_none catalog e.id _ hpc1]
          rw [processEntity_plan _ e.id matchList mode _ hfind2f]
          apply merge_isComplete_of _ _ _ _ hX hU hI
          exact run2_parent_none_shape1 catalog e matchList mode s stub q.id
            none hpick hres2 (Or.inl heq)
        · by_cases hchain : chainMem (parentOf catalog) catalog.length q.id
              e.id = true
          · have hpc1 : (merge catalog e matchList mode).parent_change =
                none := by
              show (parentChangeFor catalog e (matchedRecords matchList)).1 =
                none
              simp [parentChangeFor, hpick, hres, heq, hchain]
            rw [applyPlan_parent_none catalog e.id _ hpc1]
            rw [processEntity_plan _ e.id matchList mode _ hfind2f]
            apply merge_isComplete_of _ _ _ _ hX hU hI
            exact run2_parent_none_shape1 catalog e matchList mode s stub q.id
              none hpick hres2 (Or.inr hchain)
          · have hchainf : chainMem (parentOf catalog) catalog.length q.id
                e.id = false := Bool.eq_false_iff.mpr hchain
            have hpc1 : (merge catalog e matchList mode).parent_change =
                some (ParentChange.linkExisting q.id none) := by
              show (parentChangeFor catalog e (matchedRecords matchList)).1 = _
              simp [parentChangeFor, hpick, hres, heq, hchainf]
            rw [applyPlan_link_nobf catalog e.id q.id _ hpc1]
            have hfind2l : (applyLink (applyFields catalog e.id
                (merge catalog e matchList mode)) e.id q.id).find?
                (fun x => x.id == e.id) =
                some { applyFieldChanges e (merge catalog e matchList mode)
                  with parent_id := some q.id } := by
              unfold applyLink
              rw [find?_id_map _ _ (linkMap_id q.id e.id) e.id, hfind2f]
              simp only [Option.map_some']
              simp [applyFieldChanges_id]
            rw [processEntity_plan _ e.id matchList mode _ hfind2l]
            refine merge_isComplete_of _ _ _ _ ?_ ?_ ?_ ?_
            · exact hX
            · exact hU
            · exact hI
            have hfbe2l : findByExternalId (applyLink (applyFields catalog
                e.id (merge catalog e matchList mode)) e.id q.id) s eid =
                some q := by
              rw [findByEid_link, hfbe2f]
              simp [hqb, hqidne]
            have hres3 : resolveParent (applyLink (applyFields catalog e.id
                (merge catalog e matchList mode)) e.id q.id) s stub =
                ParentChange.linkExisting q.id none := by
              simp [resolveParent, hstub, hfbe2l]
            have heq2 : ({ applyFieldChanges e (merge catalog e matchList mode)
                with parent_id := some q.id } : LocalEntity).parent_id =
                some q.id := rfl
            show (parentChangeFor _ _ (matchedRecords matchList)).1 = none
            simp [parentChangeFor, hpick, hres3, heq2]
      | none =>
        have hfbe2f : findByExternalId (applyFields catalog e.id
            (merge catalog e matchList mode)) s eid = none := by
          rw [findByEid_fields catalog e _ hids hmem s eid hcl hN, hfbe]
          rfl
        cases hfn : findByExactName catalog stub.name with
        | some pnt =>
          obtain ⟨hpntmem, hpntname⟩ := findByName_some_facts hfn
          have hres : resolveParent catalog s stub =
              ParentChange.linkExisting pnt.id (some (s, eid)) := by
            simp [resolveParent, resolveByName, hstub, hfbe, hfn]
          have hname2 : findByExactName (applyFields catalog e.id
              (merge catalog e matchList mode)) stub.name =
              some (if pnt.id == e.id
                then applyFieldChanges pnt (merge catalog e matchList mode)
                else pnt) := by
            rw [findByName_fields, hfn]
            rfl
          have hres2 : resolveParent (applyFields catalog e.id
              (merge catalog e matchList mode)) s stub =
              ParentChange.linkExisting pnt.id (some (s, eid)) := by
            simp [resolveParent, resolveByName, hstub, hfbe2f, hname2]
            split <;> simp [applyFieldChanges_id]
          by_cases heq : e.parent_id = some pnt.id
          · have hpc1 : (merge catalog e matchList mode).parent_change =
                none := by
              show (parentChangeFor catalog e (matchedRecords matchList)).1 =
                none
              simp [parentChangeFor, hpick, hres, heq]
            rw [applyPlan_parent_none catalog e.id _ hpc1]
            rw [processEntity_plan _ e.id matchList mode _ hfind2f]
            apply merge_isComplete_of _ _ _ _ hX hU hI
            exact run2_parent_none_shape1 catalog e matchList mode s stub
              pnt.id (some (s, eid)) hpick hres2 (Or.inl heq)
          · by_cases hchain : chainMem (parentOf catalog) catalog.length
                pnt.id e.id = true
            · have hpc1 : (merge catalog e matchList mode).parent_change =
                  none := by
                show (parentChangeFor catalog e (matchedRecords matchList)).1 =
                  none
                simp [parentChangeFor, hpick, hres, heq, hchain]
              rw [applyPlan_parent_none catalog e.id _ hpc1]
              rw [processEntity_plan _ e.id matchList mode _ hfind2f]
              apply merge_isComplete_of _ _ _ _ hX hU hI
              exact run2_parent_none_shape1 catalog e matchList mode s stub
                pnt.id (some (s, eid)) hpick hres2 (Or.inr hchain)
            · have hchainf : chainMem (parentOf catalog) catalog.length
                  pnt.id e.id = false := Bool.eq_false_iff.mpr hchain
              have hpe : pnt.id ≠ e.id := ne_of_chainMem_false hchainf
              have hpb : (pnt.id == e.id) = false := beq_eq_false_iff_ne.mpr hpe
              have hepb : (e.id == pnt.id) = false :=
                beq_eq_false_iff_ne.mpr (fun hc => hpe hc.symm)
              have hpc1 : (merge catalog e matchList mode).parent_change =
                  some (ParentChange.linkExisting pnt.id (some (s, eid))) := by
                show (parentChangeFor catalog e (matchedRecords matchList)).1 = _
                simp [parentChangeFor, hpick, hres, heq, hchainf]
              rw [applyPlan_link_backfill catalog e.id pnt.id s eid _ hpc1]
              have hfind2l : (applyLink (applyFields catalog e.id
                  (merge catalog e matchList mode)) e.id pnt.id).find?
                  (fun x => x.id == e.id) =
                  some { applyFieldChanges e (merge catalog e matchList mode)
                    with parent_id := some pnt.id } := by
                unfold applyLink
                rw [find?_id_map _ _ (linkMap_id pnt.id e.id) e.id, hfind2f]
                simp only [Option.map_some']
                simp [applyFieldChanges_id]
              have hfind2b : (applyBackfill (applyLink (applyFields catalog
                  e.id (merge catalog e matchList mode)) e.id pnt.id) pnt.id
                  s eid).find? (fun x => x.id == e.id) =
                  some { applyFieldChanges e (merge catalog e matchList mode)
                    with parent_id := some pnt.id } := by
                unfold applyBackfill
                rw [find?_id_map _ _ (backfillMap_id s eid pnt.id) e.id,
                  hfind2l]
                simp only [Option.map_some']
                rw [if_neg (by simp [applyFieldChanges_id, hepb])]
              rw [processEntity_plan _ e.id matchList mode _ hfind2b]
              refine merge_isComplete_of _ _ _ _ ?_ ?_ ?_ ?_
              · exact hX
              · exact hU
              · exact hI
              have hXfind : (applyLink (applyFields catalog e.id
                  (merge catalog e matchList mode)) e.id pnt.id).find?
                  (fun x => x.id == pnt.id) = some pnt := by
                unfold applyLink
                rw [find?_id_map _ _ (linkMap_id pnt.id e.id) pnt.id]
                unfold applyFields
                rw [find?_id_map _ _
                  (fieldsMap_id (merge catalog e matchList mode) e.id) pnt.id]
                rw [find?_id_unique hpntmem hids]
                simp [hpb, hpe]
              have hnoneX : findByExternalId (applyLink (applyFields catalog
                  e.id (merge catalog e matchList mode)) e.id pnt.id) s eid =
                  none := by
                rw [findByEid_link, hfbe2f]
                rfl
              have hstep2 := findByEid_backfill _ pnt.id s eid pnt hXfind
                hnoneX
              have hres3 : resolveParent (applyBackfill (applyLink
                  (applyFields catalog e.id (merge catalog e matchList mode))
                  e.id pnt.id) pnt.id s eid) s stub =
                  ParentChange.linkExisting pnt.id none := by
                simp [resolveParent, hstub, hstep2]
              have heq2 : ({ applyFieldChanges e
                  (merge catalog e matchList mode)
                  with parent_id := some pnt.id } : LocalEntity).parent_id =
                  some pnt.id := rfl
              show (parentChangeFor _ _ (matchedRecords matchList)).1 = none
              simp [parentChangeFor, hpick, hres3, heq2]
        | none =>
          have hres : resolveParent catalog s stub =
              ParentChange.createAndLink stub.name (some (s, eid)) := by
            simp [resolveParent, resolveByName, hstub, hfbe, hfn]
          have hpc1 : (merge catalog e matchList mode).parent_change =
              some (ParentChange.createAndLink stub.name (some (s, eid))) := by
            show (parentChangeFor catalog e (matchedRecords matchList)).1 = _
            simp [parentChangeFor, hpick, hres]
          rw [applyPlan_create catalog e.id stub.name (some (s, eid)) _ hpc1]
          have hnpne : freshId catalog ≠ e.id := by
            have h2 := lt_freshId hmem
            omega
          have hnpb : ((newParentEntity (freshId (applyFields catalog e.id
              (merge catalog e matchList mode))) stub.name
              (some (s, eid))).id == e.id) = false := by
            show ((freshId (applyFields catalog e.id
              (merge catalog e matchList mode)) : Nat) == e.id) = false
            rw [freshId_applyFields]
            exact beq_eq_false_iff_ne.mpr hnpne
          have hfind2c : (applyLink (applyFields catalog e.id
              (merge catalog e matchList mode) ++
              [newParentEntity (freshId (applyFields catalog e.id
                (merge catalog e matchList mode))) stub.name (some (s, eid))])
              e.id (freshId (applyFields catalog e.id
                (merge catalog e matchList mode)))).find?
              (fun x => x.id == e.id) =
              some { applyFieldChanges e (merge catalog e matchList mode)
                with parent_id := some (freshId (applyFields catalog e.id
                  (merge catalog e matchList mode))) } := by
            unfold applyLink
            rw [find?_id_map _ _ (linkMap_id _ e.id) e.id]
            rw [find?_append_of_some hfind2f
              [newParentEntity (freshId (applyFields catalog e.id
                (merge catalog e matchList mode))) stub.name (some (s, eid))]]
            simp only [Option.map_some']
            simp [applyFieldChanges_id]
          rw [processEntity_plan _ e.id matchList mode _ hfind2c]
          refine merge_isComplete_of _ _ _ _ ?_ ?_ ?_ ?_
          · exact hX
          · exact hU
          · exact hI
          have hnplook : lookupSource (newParentEntity (freshId (applyFields
              catalog e.id (merge catalog e matchList mode))) stub.name
              (some (s, eid))).external_ids s = some eid := by
            show lookupSource [(s, eid)] s = some eid
            simp [lookupSource, List.find?_cons]
          have happE : findByExternalId (applyFields catalog e.id
              (merge catalog e matchList mode) ++
              [newParentEntity (freshId (applyFields catalog e.id
                (merge catalog e matchList mode))) stub.name (some (s, eid))])
              s eid = some (newParentEntity (freshId (applyFields catalog e.id
                (merge catalog e matchList mode))) stub.name (some (s, eid))) := by
            unfold findByExternalId
            have hleft : (applyFields catalog e.id
                (merge catalog e matchList mode)).find?
                (fun x => lookupSource x.external_ids s == some eid) = none := by
              have h2 := hfbe2f
              unfold findByExternalId at h2
              exact h2
            rw [find?_append_of_none hleft]
            simp [List.find?_cons, hnplook]
          have hstep2 : findByExternalId (applyLink (applyFields catalog e.id
              (merge catalog e matchList mode) ++
              [newParentEntity (freshId (applyFields catalog e.id
                (merge catalog e matchList mode))) stub.name (some (s, eid))])
              e.id (freshId (applyFields catalog e.id
                (merge catalog e matchList mode)))) s eid =
              some (newParentEntity (freshId (applyFields catalog e.id
                (merge catalog e matchList mode))) stub.name (some (s, eid))) := by
            rw [findByEid_link, happE]
            simp only [Option.map_some']
            rw [if_neg (by simp [hnpb])]
          have hres3 : resolveParent (applyLink (applyFields catalog e.id
              (merge catalog e matchList mode) ++
              [newParentEntity (freshId (applyFields catalog e.id
                (merge catalog e matchList mode))) stub.name (some (s, eid))])
              e.id (freshId (applyFields catalog e.id
                (merge catalog e matchList mode)))) s stub =
              ParentChange.linkExisting (freshId (applyFields catalog e.id
                (merge catalog e matchList mode))) none := by
            simp only [resolveParent, hstub, hstep2]
            simp [newParentEntity]
          have heq2 : ({ applyFieldChanges e (merge catalog e matchList mode)
              with parent_id := some (freshId (applyFields catalog e.id
                (merge catalog e matchList mode))) } : LocalEntity).parent_id =
              some (freshId (applyFields catalog e.id
                (merge catalog e matchList mode))) := rfl
          show (parentChangeFor _ _ (matchedRecords matchList)).1 = none
          simp [parentChangeFor, hpick, hres3, heq2]
    | none =>
      cases hfn : findByExactName catalog stub.name with
      | some pnt =>
        obtain ⟨hpntmem, hpntname⟩ := findByName_some_facts hfn
        have hres : resolveParent catalog s stub =
            ParentChange.linkExisting pnt.id none := by
          simp [resolveParent, resolveByName, hstub, hfn]
        have hname2 : findByExactName (applyFields catalog e.id
            (merge catalog e matchList mode)) stub.name =
            some (if pnt.id == e.id
              then applyFieldChanges pnt (merge catalog e matchList mode)
              else pnt) := by
          rw [findByName_fields, hfn]
          rfl
        have hres2 : resolveParent (applyFields catalog e.id
            (merge catalog e matchList mode)) s stub =
            ParentChange.linkExisting pnt.id none := by
          simp [resolveParent, resolveByName, hstub, hname2]
          split <;> simp [applyFieldChanges_id]
        by_cases heq : e.parent_id = some pnt.id
        · have hpc1 : (merge catalog e matchList mode).parent_change =
              none := by
            show (parentChangeFor catalog e (matchedRecords matchList)).1 =
              none
            simp [parentChangeFor, hpick, hres, heq]
          rw [applyPlan_parent_none catalog e.id _ hpc1]
          rw [processEntity_plan _ e.id matchList mode _ hfind2f]
          apply merge_isComplete_of _ _ _ _ hX hU hI
          exact run2_parent_none_shape1 catalog e matchList mode s stub
            pnt.id none hpick hres2 (Or.inl heq)
        · by_cases hchain : chainMem (parentOf catalog) catalog.length
              pnt.id e.id = true
          · have hpc1 : (merge catalog e matchList mode).parent_change =
                none := by
              show (parentChangeFor catalog e (matchedRecords matchList)).1 =
                none
              simp [parentChangeFor, hpick, hres, heq, hchain]
            rw [applyPlan_parent_none catalog e.id _ hpc1]
            rw [processEntity_plan _ e.id matchList mode _ hfind2f]
            apply merge_isComplete_of _ _ _ _ hX hU hI
            exact run2_parent_none_shape1 catalog e matchList mode s stub
              pnt.id none hpick hres2 (Or.inr hchain)
          · have hchainf : chainMem (parentOf catalog) catalog.length
                pnt.id e.id = false := Bool.eq_false_iff.mpr hchain
            have hpe : pnt.id ≠ e.id := ne_of_chainMem_false hchainf
            have hpb : (pnt.id == e.id) = false := beq_eq_false_iff_ne.mpr hpe
            have hpc1 : (merge catalog e matchList mode).parent_change =
                some (ParentChange.linkExisting pnt.id none) := by
              show (parentChangeFor catalog e (matchedRecords matchList)).1 = _
              simp [parentChangeFor, hpick, hres, heq, hchainf]
            rw [applyPlan_link_nobf catalog e.id pnt.id _ hpc1]
            have hfind2l : (applyLink (applyFields catalog e.id
                (merge catalog e matchList mode)) e.id pnt.id).find?
                (fun x => x.id == e.id) =
                some { applyFieldChanges e (merge catalog e matchList mode)
                  with parent_id := some pnt.id } := by
              unfold applyLink
              rw [find?_id_map _ _ (linkMap_id pnt.id e.id) e.id, hfind2f]
              simp only [Option.map_some']
              simp [applyFieldChanges_id]
            rw [processEntity_plan _ e.id matchList mode _ hfind2l]
            refine merge_isComplete_of _ _ _ _ ?_ ?_ ?_ ?_
            · exact hX
            · exact hU
            · exact hI
            have hname2b : findByExactName (applyFields catalog e.id
                (merge catalog e matchList mode)) stub.name = some pnt := by
              rw [findByName_fields, hfn]
              simp [hpb, hpe]
            have hnamel : findByExactName (applyLink (applyFields catalog e.id
                (merge catalog e matchList mode)) e.id pnt.id) stub.name =
                some pnt := by
              rw [findByName_link, hname2b]
              simp [hpb, hpe]
            have hres3 : resolveParent (applyLink (applyFields catalog e.id
                (merge catalog e matchList mode)) e.id pnt.id) s stub =
                ParentChange.linkExisting pnt.id none := by
              simp [resolveParent, resolveByName, hstub, hnamel]
            have heq2 : ({ applyFieldChanges e (merge catalog e matchList mode)
                with parent_id := some pnt.id } : LocalEntity).parent_id =
                some pnt.id := rfl
            show (parentChangeFor _ _ (matchedRecords matchList)).1 = none
            simp [parentChangeFor, hpick, hres3, heq2]
      | none =>
        have hres : resolveParent catalog s stub =
            ParentChange.createAndLink stub.name none := by
          simp [resolveParent, resolveByName, hstub, hfn]
        have hpc1 : (merge catalog e matchList mode).parent_change =
            some (ParentChange.createAndLink stub.name none) := by
          show (parentChangeFor catalog e (matchedRecords matchList)).1 = _
          simp [parentChangeFor, hpick, hres]
        rw [applyPlan_create catalog e.id stub.name none _ hpc1]
        have hnpne : freshId catalog ≠ e.id := by
          have h2 := lt_freshId hmem
          omega
        have hnpb : ((newParentEntity (freshId (applyFields catalog e.id
            (merge catalog e matchList mode))) stub.name none).id == e.id) =
            false := by
          show ((freshId (applyFields catalog e.id
            (merge catalog e matchList mode)) : Nat) == e.id) = false
          rw [freshId_applyFields]
          exact beq_eq_false_iff_ne.mpr hnpne
        have hfind2c : (applyLink (applyFields catalog e.id
            (merge catalog e matchList mode) ++
            [newParentEntity (freshId (applyFields catalog e.id
              (merge catalog e matchList mode))) stub.name none])
            e.id (freshId (applyFields catalog e.id
              (merge catalog e matchList mode)))).find?
            (fun x => x.id == e.id) =
            some { applyFieldChanges e (merge catalog e matchList mode)
              with parent_id := some (freshId (applyFields catalog e.id
                (merge catalog e matchList mode))) } := by
          unfold applyLink
          rw [find?_id_map _ _ (linkMap_id _ e.id) e.id]
          rw [find?_append_of_some hfind2f
            [newParentEntity (freshId (applyFields catalog e.id
              (merge catalog e matchList mode))) stub.name none]]
          simp only [Option.map_some']
          simp [applyFieldChanges_id]
        rw [processEntity_plan _ e.id matchList mode _ hfind2c]
        refine merge_isComplete_of _ _ _ _ ?_ ?_ ?_ ?_
        · exact hX
        · exact hU
        · exact hI
        have hnleft : findByExactName (applyFields catalog e.id
            (merge catalog e matchList mode)) stub.name = none := by
          rw [findByName_fields, hfn]
          rfl
        have hnapp : findByExactName (applyFields catalog e.id
            (merge catalog e matchList mode) ++
            [newParentEntity (freshId (applyFields catalog e.id
              (merge catalog e matchList mode))) stub.name none]) stub.name =
            some (newParentEntity (freshId (applyFields catalog e.id
              (merge catalog e matchList mode))) stub.name none) := by
          unfold findByExactName
          have hleft2 : (applyFields catalog e.id
              (merge catalog e matchList mode)).find?
              (fun x => x.name == stub.name) = none := by
            have h2 := hnleft
            unfold findByExactName at h2
            exact h2
          rw [find?_append_of_none hleft2]
          simp [List.find?_cons, newParentEntity]
        have hnamel : findByExactName (applyLink (applyFields catalog e.id
            (merge catalog e matchList mode) ++
            [newParentEntity (freshId (applyFields catalog e.id
              (merge catalog e matchList mode))) stub.name none])
            e.id (freshId (applyFields catalog e.id
              (merge catalog e matchList mode)))) stub.name =
            some (newParentEntity (freshId (applyFields catalog e.id
              (merge catalog e matchList mode))) stub.name none) := by
          rw [findByName_link, hnapp]
          simp only [Option.map_some']
          rw [if_neg (by simp [hnpb])]
        have hres3 : resolveParent (applyLink (applyFields catalog e.id
            (merge catalog e matchList mode) ++
            [newParentEntity (freshId (applyFields catalog e.id
              (merge catalog e matchList mode))) stub.name none])
            e.id (freshId (applyFields catalog e.id
              (merge catalog e matchList mode)))) s stub =
            ParentChange.linkExisting (freshId (applyFields catalog e.id
              (merge catalog e matchList mode))) none := by
          simp only [resolveParent, resolveByName, hstub, hnamel]
          simp [newParentEntity]
        have heq2 : ({ applyFieldChanges e (merge catalog e matchList mode)
            with parent_id := some (freshId (applyFields catalog e.id
              (merge catalog e matchList mode))) } : LocalEntity).parent_id =
            some (freshId (applyFields catalog e.id
              (merge catalog e matchList mode))) := rfl
        show (parentChangeFor _ _ (matchedRecords matchList)).1 = none
        simp [parentChangeFor, hpick, hres3, heq2]

/-- A concrete local entity for the idempotence witness. -/
def c6Entity : LocalEntity :=
  { id := 0, name := "Alpha Studio", external_ids := [], url := none
    image := none, parent_id := none }

/-- A concrete matched record that declares a new parent by external id. -/
def c6Rec : ExternalRecord :=
  { source := "stashdb", external_id := "r1", name := "Alpha Studio"
    aliases := [], url := some "https://ex/alpha", image := some "alpha.jpg"
    parent_stub := some { external_id := some "p1", name := "Parent Studio" } }

/-- The one-entity catalog for the idempotence witness. -/
def c6Catalog : List LocalEntity := [c6Entity]

/-- The match outcome list for the idempotence witness. -/
def c6Matches : List (String × MatchResult) :=
  [("stashdb", MatchResult.exact c6Rec)]

/-- Witness for C6: on a one-entity catalog whose StashDB match declares a new
parent studio, running the engine a second time yields a complete plan — no
field change, no parent change, no conflict. -/
theorem engine_idempotent_wit :
    ((processEntity (processEntity c6Catalog c6Entity.id c6Matches
        Mode.fill_missing).2 c6Entity.id c6Matches
        Mode.fill_missing).1).isComplete = true := by
  apply engine_idempotent c6Catalog c6Entity c6Matches Mode.fill_missing
  · decide
  · decide
  · decide
  · intro s r hr stub hstub eid heid
    have hr2 := hr
    simp [c6Matches, matchedRecords, MatchResult.record?] at hr2
    obtain ⟨hs, hrr⟩ := hr2
    subst hrr
    rw [show c6Rec.parent_stub =
      some ⟨some "p1", "Parent Studio"⟩ from rfl] at hstub
    injection hstub with hstub2
    rw [← hstub2] at heid
    have heid2 : some "p1" = some eid := heid
    injection heid2 with he
    rw [← he]
    decide
  · intro s stub hp eid heid hc
    exact Option.noConfusion hc

end StudioSync
